import Mathlib

/-!
Shallow embedding of the checkers ("Dama") rules engine from the repository's
`game.js` (class `CheckersGame`).  The board is an 8×8 grid of optional pieces,
indexed `board[row][col]` exactly as in the source; the scanning loops of the
source (king sliding and king capture scanning) are embedded as fuel-bounded
recursions, where a fuel of 8 is always sufficient: every loop advances one
diagonal step per iteration from an on-board origin, so the position is
off-board after at most 8 steps and the loop's own bounds check stops it.

DOM rendering, animations, statistics (`stats`, `loadStats`, …) and event
wiring carry no rules logic and are not modelled.  Two source fields are not
carried in the state: `mustCapture`, which the source assigns in
`getValidMoves` but never reads anywhere, and `selectedPiece`, which always
holds exactly the piece stored at `selectedSquare` (both are set together in
`selectPiece` and cleared together in `deselectPiece`).  The declared winner
passed to `endGame` is recorded in a `winner` field so that termination
results are observable.
-/

set_option maxHeartbeats 1000000

namespace Dama

inductive Color where
  | red
  | black
deriving DecidableEq, Repr

/-- The opposite side. -/
def Color.other : Color → Color
  | .red => .black
  | .black => .red

/-- A piece: `{ color, king }` in the source. -/
structure Piece where
  color : Color
  king : Bool
deriving DecidableEq, Repr

/-- A move record `{ row, col, capture }` as produced by the move generators:
the destination square plus the optional coordinates of the captured piece. -/
structure Move where
  row : Int
  col : Int
  capture : Option (Int × Int)
deriving DecidableEq, Repr

/-- The 8×8 board, `board[row][col]`. -/
abbrev Board := Fin 8 → Fin 8 → Option Piece

/-- `isValidPosition(row, col)`: both coordinates in `[0, 8)`. -/
def isValidPosition (row col : Int) : Bool :=
  decide (0 ≤ row) && decide (row < 8) && decide (0 ≤ col) && decide (col < 8)

/-- Reading `board[row][col]`; out-of-range coordinates read as empty (the
source always guards reads by `isValidPosition`). -/
def Board.get (b : Board) (row col : Int) : Option Piece :=
  if h : 0 ≤ row ∧ row < 8 ∧ 0 ≤ col ∧ col < 8 then
    b ⟨row.toNat, by omega⟩ ⟨col.toNat, by omega⟩
  else none

/-- Writing `board[row][col] = v`. -/
def Board.set (b : Board) (row col : Int) (v : Option Piece) : Board :=
  fun r c => if ((r : ℕ) : ℤ) = row ∧ ((c : ℕ) : ℤ) = col then v else b r c

/-- `initBoard()`: black pieces on the dark squares of rows 0–2, red pieces on
the dark squares of rows 5–7, everything else empty. -/
def initBoard : Board := fun row col =>
  if (row : ℕ) < 3 ∧ ((row : ℕ) + (col : ℕ)) % 2 = 0 then
    some { color := Color.black, king := false }
  else if 5 ≤ (row : ℕ) ∧ ((row : ℕ) + (col : ℕ)) % 2 = 0 then
    some { color := Color.red, king := false }
  else
    none

/-- The direction set shared by `getNormalMoves` and `getCaptureMoves`:
kings use all four diagonals, red moves up (toward row 0), black moves down. -/
def pieceDirections (piece : Piece) : List (Int × Int) :=
  if piece.king then [(-1, -1), (-1, 1), (1, -1), (1, 1)]
  else if piece.color = Color.red then [(-1, -1), (-1, 1)]
  else [(1, -1), (1, 1)]

/-- The king branch of `getNormalMoves`: the `while (true)` slide along one
diagonal, collecting empty squares until the first obstruction or the edge. -/
def kingSlide (b : Board) (row col dRow dCol : Int) : Nat → Int → List Move
  | 0, _ => []
  | fuel + 1, distance =>
    let newRow := row + dRow * distance
    let newCol := col + dCol * distance
    if isValidPosition newRow newCol then
      match b.get newRow newCol with
      | some _ => []
      | none =>
          { row := newRow, col := newCol, capture := none } ::
            kingSlide b row col dRow dCol fuel (distance + 1)
    else []

/-- `getNormalMoves(row, col)`: one diagonal step onto an empty square for
regular pieces, the full slide for kings. -/
def getNormalMoves (b : Board) (row col : Int) : List Move :=
  match b.get row col with
  | none => []
  | some piece =>
    (pieceDirections piece).flatMap fun d =>
      if piece.king then
        kingSlide b row col d.1 d.2 8 1
      else
        let newRow := row + d.1
        let newCol := col + d.2
        if isValidPosition newRow newCol ∧ b.get newRow newCol = none then
          [{ row := newRow, col := newCol, capture := none }]
        else []

/-- The king branch of `getCaptureMoves`: the `while (true)` scan along one
diagonal.  Before an enemy is found (`enemyPos = none`): skip empty squares,
record the first enemy met, stop on an own piece.  After the enemy is found:
every empty square is a landing destination capturing it; stop at the first
further occupied square or the edge. -/
def kingCaptureScan (b : Board) (pieceColor : Color) (row col dRow dCol : Int) :
    Nat → Int → Option (Int × Int) → List Move
  | 0, _, _ => []
  | fuel + 1, distance, enemyPos =>
    let checkRow := row + dRow * distance
    let checkCol := col + dCol * distance
    if isValidPosition checkRow checkCol then
      match enemyPos, b.get checkRow checkCol with
      | none, none =>
          kingCaptureScan b pieceColor row col dRow dCol fuel (distance + 1) none
      | none, some sq =>
          if sq.color ≠ pieceColor then
            kingCaptureScan b pieceColor row col dRow dCol fuel (distance + 1)
              (some (checkRow, checkCol))
          else []
      | some ep, none =>
          { row := checkRow, col := checkCol, capture := some ep } ::
            kingCaptureScan b pieceColor row col dRow dCol fuel (distance + 1) (some ep)
      | some _, some _ => []
    else []

/-- `getCaptureMoves(row, col)`: adjacent jumps for regular pieces, the long
range scan for kings. -/
def getCaptureMoves (b : Board) (row col : Int) : List Move :=
  match b.get row col with
  | none => []
  | some piece =>
    (pieceDirections piece).flatMap fun d =>
      if piece.king then
        kingCaptureScan b piece.color row col d.1 d.2 8 1 none
      else
        let jumpRow := row + d.1
        let jumpCol := col + d.2
        let landRow := row + d.1 * 2
        let landCol := col + d.2 * 2
        if isValidPosition jumpRow jumpCol ∧ isValidPosition landRow landCol then
          match b.get jumpRow jumpCol, b.get landRow landCol with
          | some jumped, none =>
            if jumped.color ≠ piece.color then
              [{ row := landRow, col := landCol, capture := some (jumpRow, jumpCol) }]
            else []
          | _, _ => []
        else []

/-- `getAllCaptureMoves(color)`: the union of `getCaptureMoves` over every
square holding a piece of that color. -/
def getAllCaptureMoves (b : Board) (color : Color) : List Move :=
  (List.range 8).flatMap fun row =>
    (List.range 8).flatMap fun col =>
      match b.get (row : Int) (col : Int) with
      | some piece =>
          if piece.color = color then getCaptureMoves b (row : Int) (col : Int) else []
      | none => []

/-- `getValidMoves(row, col)`: the forced-capture rule — if any capture exists
for the piece's side, only this piece's captures are returned; otherwise its
captures (necessarily none) followed by its normal moves. -/
def getValidMoves (b : Board) (row col : Int) : List Move :=
  match b.get row col with
  | none => []
  | some piece =>
    let captureMoves := getCaptureMoves b row col
    if getAllCaptureMoves b piece.color ≠ [] then captureMoves
    else captureMoves ++ getNormalMoves b row col

/-- `countPieces(color)`. -/
def countPieces (b : Board) (color : Color) : Nat :=
  (List.range 8).foldl (fun acc row =>
    (List.range 8).foldl (fun acc2 col =>
      match b.get (row : Int) (col : Int) with
      | some piece => if piece.color = color then acc2 + 1 else acc2
      | none => acc2) acc) 0

/-- `playerHasValidMoves(color)`; the argument is optional because the source
compares `piece.color === this.currentPlayer` and `currentPlayer` may be
`null` (in which case no piece ever matches). -/
def playerHasValidMoves (b : Board) (player : Option Color) : Bool :=
  (List.range 8).any fun row =>
    (List.range 8).any fun col =>
      match b.get (row : Int) (col : Int) with
      | some piece =>
          decide (some piece.color = player) &&
            decide (getValidMoves b (row : Int) (col : Int) ≠ [])
      | none => false

/-- The engine state carried by the `CheckersGame` instance (rules-relevant
fields only, see the module comment). -/
structure GameState where
  board : Board
  currentPlayer : Option Color
  selectedSquare : Option (Int × Int)
  validMoves : List Move
  continueCapture : Bool
  gameOver : Bool
  winner : Option Color
deriving DecidableEq

/-- `selectPiece(row, col)`: record the selection and compute its move list —
capture moves only while a chain is pending, `getValidMoves` otherwise. -/
def selectPiece (g : GameState) (row col : Int) : GameState :=
  { g with
    selectedSquare := some (row, col)
    validMoves :=
      if g.continueCapture then getCaptureMoves g.board row col
      else getValidMoves g.board row col }

/-- `deselectPiece()`: a no-op during a pending multi-capture, otherwise it
clears the selection and the move list. -/
def deselectPiece (g : GameState) : GameState :=
  if g.continueCapture then g
  else { g with selectedSquare := none, validMoves := [] }

/-- `switchPlayer()`: the source's ternary `currentPlayer === "red" ?
"black" : "red"` (so a `null` player becomes red). -/
def switchPlayer (g : GameState) : GameState :=
  { g with currentPlayer :=
      if g.currentPlayer = some Color.red then some Color.black else some Color.red }

/-- `endGame(winner)`: sets the game-over flag and declares the winner. -/
def endGame (g : GameState) (w : Color) : GameState :=
  { g with gameOver := true, winner := some w }

/-- `checkWinCondition()`: a side with no pieces loses; otherwise a side to
move with no valid moves loses; otherwise nothing happens. -/
def checkWinCondition (g : GameState) : GameState :=
  if countPieces g.board Color.red = 0 then endGame g Color.black
  else if countPieces g.board Color.black = 0 then endGame g Color.red
  else if playerHasValidMoves g.board g.currentPlayer then g
  else endGame g (if g.currentPlayer = some Color.red then Color.black else Color.red)

/-- The predicate `movePiece` uses to look up the chosen destination in the
stored `validMoves` list (`m.row === toRow && m.col === toCol`). -/
def moveMatcher (toRow toCol : Int) : Move → Bool :=
  fun m => decide (m.row = toRow) && decide (m.col = toCol)

/-- `isValidMove(row, col)`: membership of the destination in the stored
`validMoves` list. -/
def isValidMove (g : GameState) (row col : Int) : Bool :=
  g.validMoves.any fun m => decide (m.row = row) && decide (m.col = col)

/-- The board mutation performed by `movePiece` once a move is accepted:
place the piece at the destination, empty the origin, empty the captured
square if any, then promote.  The source promotes by mutating the moved piece
object in place (`piece.king = true`), which is visible on the board exactly
when the destination square still references that piece — always the case for
generated moves, whose captured square is occupied and whose destination is
empty before the move. -/
def applyMoveBoard (b : Board) (fromRow fromCol toRow toCol : Int)
    (piece : Piece) (capture : Option (Int × Int)) : Board :=
  let moved := (b.set toRow toCol (some piece)).set fromRow fromCol none
  let afterCapture :=
    match capture with
    | some cap => moved.set cap.1 cap.2 none
    | none => moved
  if ((piece.color = Color.red ∧ toRow = 0) ∨ (piece.color = Color.black ∧ toRow = 7)) ∧
      piece.king = false then
    if afterCapture.get toRow toCol = some piece then
      afterCapture.set toRow toCol (some { piece with king := true })
    else afterCapture
  else afterCapture

/-- `movePiece(fromRow, fromCol, toRow, toCol)`: reject a destination absent
from the stored move list; otherwise mutate the board, then either end the
turn immediately on promotion, continue the chain when the capture enables
further captures from the landing square, or end the turn (clear the chain
flag and the selection, switch sides, check termination).  An empty origin is
a no-op here: the source dereferences the moved piece before any write, so it
throws before changing anything (unreachable through the click handler). -/
def movePiece (g : GameState) (fromRow fromCol toRow toCol : Int) : GameState :=
  match g.validMoves.find? (moveMatcher toRow toCol) with
  | none => g
  | some move =>
    match g.board.get fromRow fromCol with
    | none => g
    | some piece =>
      let newBoard := applyMoveBoard g.board fromRow fromCol toRow toCol piece move.capture
      let g1 := { g with board := newBoard }
      if ((piece.color = Color.red ∧ toRow = 0) ∨ (piece.color = Color.black ∧ toRow = 7)) ∧
          piece.king = false then
        checkWinCondition (switchPlayer (deselectPiece { g1 with continueCapture := false }))
      else if move.capture.isSome ∧ getCaptureMoves newBoard toRow toCol ≠ [] then
        selectPiece { g1 with continueCapture := true } toRow toCol
      else
        checkWinCondition (switchPlayer (deselectPiece { g1 with continueCapture := false }))

/-- The selection half of `handleSquareClick`: clicking an own piece selects
it unless a pending chain pins the selection to a different square; clicking
anything else deselects. -/
def handleSelect (g : GameState) (row col : Int) : GameState :=
  match g.board.get row col with
  | some piece =>
    if some piece.color = g.currentPlayer then
      if g.continueCapture &&
          (match g.selectedSquare with
           | some sq => decide (¬(sq.1 = row ∧ sq.2 = col))
           | none => false) then g
      else selectPiece g row col
    else deselectPiece g
  | none => deselectPiece g

/-- `handleSquareClick(row, col)`: ignored after game over; a click on a valid
destination of the current selection applies the move; otherwise the click is
treated as a selection attempt. -/
def handleSquareClick (g : GameState) (row col : Int) : GameState :=
  if g.gameOver then g
  else
    match g.selectedSquare with
    | some sq =>
      if isValidMove g row col then movePiece g sq.1 sq.2 row col
      else handleSelect g row col
    | none => handleSelect g row col

/-- `resetGame()` in `game.js`: a fresh initial board with every flag cleared —
including `currentPlayer`, which this copy of the engine resets to `null`. -/
def resetGame (_g : GameState) : GameState :=
  { board := initBoard
    currentPlayer := none
    selectedSquare := none
    validMoves := []
    continueCapture := false
    gameOver := false
    winner := none }

/-- `resetGame()` in the repository's second, older copy of the engine, which
differs here in exactly one line: it resets `currentPlayer` to `"red"`. -/
def resetGameLegacy (_g : GameState) : GameState :=
  { board := initBoard
    currentPlayer := some Color.red
    selectedSquare := none
    validMoves := []
    continueCapture := false
    gameOver := false
    winner := none }

/-- The fresh game state as the setup screen produces it: the constructor
(`initBoard`, all flags clear) followed by the host's
`game.currentPlayer = startingPlayer` override, default red. -/
def newGame (startingPlayer : Color) : GameState :=
  { board := initBoard
    currentPlayer := some startingPlayer
    selectedSquare := none
    validMoves := []
    continueCapture := false
    gameOver := false
    winner := none }

/-! ### Concrete test positions -/

/-- The all-empty board, for building concrete test positions. -/
def emptyBoard : Board := fun _ _ => none

/-- A fresh state over a given board with the given side to move, no
selection, no pending chain, game in progress. -/
def baseState (b : Board) (c : Color) : GameState :=
  { board := b
    currentPlayer := some c
    selectedSquare := none
    validMoves := []
    continueCapture := false
    gameOver := false
    winner := none }

/-- Promotion test position: the red man at (2,1) captures (1,2) and lands on
(0,3), promoting; a further capture of (1,4) would be available from (0,3). -/
def boardPromo : Board :=
  ((emptyBoard.set 2 1 (some { color := Color.red, king := false })).set 1 2
    (some { color := Color.black, king := false })).set 1 4
    (some { color := Color.black, king := false })

/-- King-scan test position: a red king at (0,0), an enemy at (3,3), empty
landing squares (4,4) and (5,5), and a blocking piece at (6,6). -/
def boardKing : Board :=
  ((emptyBoard.set 0 0 (some { color := Color.red, king := true })).set 3 3
    (some { color := Color.black, king := false })).set 6 6
    (some { color := Color.black, king := false })

/-- Chain-capture test position: the red man at (6,2) jumps (5,3) to (4,4)
and can then jump (3,5) to (2,6); a second red man sits at (7,1). -/
def boardChain : Board :=
  (((emptyBoard.set 6 2 (some { color := Color.red, king := false })).set 5 3
    (some { color := Color.black, king := false })).set 3 5
    (some { color := Color.black, king := false })).set 7 1
    (some { color := Color.red, king := false })

/-- A board with no red pieces at all. -/
def boardNoRed : Board := emptyBoard.set 2 2 (some { color := Color.black, king := false })

/-! ### Basic board lemmas -/

theorem Board.get_eq_none_of_invalid {b : Board} {row col : Int}
    (h : ¬(0 ≤ row ∧ row < 8 ∧ 0 ≤ col ∧ col < 8)) : b.get row col = none := by
  unfold Board.get
  exact dif_neg h

theorem Board.valid_of_get_eq_some {b : Board} {row col : Int} {p : Piece}
    (h : b.get row col = some p) : 0 ≤ row ∧ row < 8 ∧ 0 ≤ col ∧ col < 8 := by
  by_contra hn
  rw [Board.get_eq_none_of_invalid hn] at h
  exact Option.noConfusion h

theorem Board.get_set (b : Board) (row col : Int) (v : Option Piece) (r c : Int) :
    (b.set row col v).get r c =
      if 0 ≤ r ∧ r < 8 ∧ 0 ≤ c ∧ c < 8 ∧ r = row ∧ c = col then v else b.get r c := by
  by_cases h : 0 ≤ r ∧ r < 8 ∧ 0 ≤ c ∧ c < 8
  · unfold Board.get Board.set
    simp only [dif_pos h]
    split_ifs with hA hB hB2
    · rfl
    · exfalso
      have ha1 : ((r.toNat : ℕ) : ℤ) = row := hA.1
      have ha2 : ((c.toNat : ℕ) : ℤ) = col := hA.2
      exact hB ⟨h.1, h.2.1, h.2.2.1, h.2.2.2, by omega, by omega⟩
    · exfalso
      obtain ⟨-, -, -, -, hr, hc2⟩ := hB2
      apply hA
      constructor
      · show ((r.toNat : ℕ) : ℤ) = row
        omega
      · show ((c.toNat : ℕ) : ℤ) = col
        omega
    · rfl
  · unfold Board.get Board.set
    simp only [dif_neg h]
    rw [if_neg]
    intro hc
    exact h ⟨hc.1, hc.2.1, hc.2.2.1, hc.2.2.2.1⟩

theorem Board.set_apply (b : Board) (row col : Int) (v : Option Piece) (r c : Fin 8) :
    (b.set row col v) r c = if ((r : ℕ) : ℤ) = row ∧ ((c : ℕ) : ℤ) = col then v else b r c :=
  rfl

/-! ### State-field bookkeeping lemmas -/

theorem selectPiece_board (g : GameState) (row col : Int) :
    (selectPiece g row col).board = g.board := rfl

theorem selectPiece_currentPlayer (g : GameState) (row col : Int) :
    (selectPiece g row col).currentPlayer = g.currentPlayer := rfl

theorem selectPiece_continueCapture (g : GameState) (row col : Int) :
    (selectPiece g row col).continueCapture = g.continueCapture := rfl

theorem deselectPiece_of_not_chain {g : GameState} (h : g.continueCapture = false) :
    deselectPiece g = { g with selectedSquare := none, validMoves := [] } := by
  unfold deselectPiece
  rw [h]
  rfl

theorem checkWinCondition_board (g : GameState) : (checkWinCondition g).board = g.board := by
  unfold checkWinCondition endGame
  split_ifs <;> rfl

theorem checkWinCondition_currentPlayer (g : GameState) :
    (checkWinCondition g).currentPlayer = g.currentPlayer := by
  unfold checkWinCondition endGame
  split_ifs <;> rfl

theorem checkWinCondition_selectedSquare (g : GameState) :
    (checkWinCondition g).selectedSquare = g.selectedSquare := by
  unfold checkWinCondition endGame
  split_ifs <;> rfl

theorem checkWinCondition_validMoves (g : GameState) :
    (checkWinCondition g).validMoves = g.validMoves := by
  unfold checkWinCondition endGame
  split_ifs <;> rfl

theorem checkWinCondition_continueCapture (g : GameState) :
    (checkWinCondition g).continueCapture = g.continueCapture := by
  unfold checkWinCondition endGame
  split_ifs <;> rfl

theorem switchPlayer_currentPlayer (g : GameState) :
    (switchPlayer g).currentPlayer =
      if g.currentPlayer = some Color.red then some Color.black else some Color.red := rfl

/-! ### `movePiece` branch lemmas -/

/-- An absent destination is rejected without any state change. -/
theorem movePiece_of_find_none {g : GameState} {fromRow fromCol toRow toCol : Int}
    (h : g.validMoves.find? (moveMatcher toRow toCol) = none) :
    movePiece g fromRow fromCol toRow toCol = g := by
  unfold movePiece
  rw [h]

/-- An empty origin changes nothing (the source throws before writing). -/
theorem movePiece_of_origin_none {g : GameState} {fromRow fromCol toRow toCol : Int}
    {mv : Move} (hfind : g.validMoves.find? (moveMatcher toRow toCol) = some mv)
    (hget : g.board.get fromRow fromCol = none) :
    movePiece g fromRow fromCol toRow toCol = g := by
  unfold movePiece
  rw [hfind, hget]

/-- The promoting branch of `movePiece`: turn ends immediately. -/
theorem movePiece_promoted {g : GameState} {fromRow fromCol toRow toCol : Int}
    {mv : Move} {piece : Piece}
    (hfind : g.validMoves.find? (moveMatcher toRow toCol) = some mv)
    (hget : g.board.get fromRow fromCol = some piece)
    (hpromo : (piece.color = Color.red ∧ toRow = 0) ∨ (piece.color = Color.black ∧ toRow = 7))
    (hking : piece.king = false) :
    movePiece g fromRow fromCol toRow toCol =
      checkWinCondition (switchPlayer (deselectPiece
        { g with board := applyMoveBoard g.board fromRow fromCol toRow toCol piece mv.capture
                 continueCapture := false })) := by
  unfold movePiece
  rw [hfind, hget]
  simp only [if_pos (And.intro hpromo hking)]

/-- The chain-continuation branch of `movePiece`. -/
theorem movePiece_chain {g : GameState} {fromRow fromCol toRow toCol : Int}
    {mv : Move} {piece : Piece}
    (hfind : g.validMoves.find? (moveMatcher toRow toCol) = some mv)
    (hget : g.board.get fromRow fromCol = some piece)
    (hnoPromo : ¬(((piece.color = Color.red ∧ toRow = 0) ∨
        (piece.color = Color.black ∧ toRow = 7)) ∧ piece.king = false))
    (hcap : mv.capture.isSome = true)
    (hmore : getCaptureMoves
        (applyMoveBoard g.board fromRow fromCol toRow toCol piece mv.capture) toRow toCol ≠ []) :
    movePiece g fromRow fromCol toRow toCol =
      selectPiece
        { g with board := applyMoveBoard g.board fromRow fromCol toRow toCol piece mv.capture
                 continueCapture := true } toRow toCol := by
  unfold movePiece
  rw [hfind, hget]
  simp only [if_neg hnoPromo, if_pos (And.intro hcap hmore)]

/-- The plain end-of-turn branch of `movePiece`. -/
theorem movePiece_endTurn {g : GameState} {fromRow fromCol toRow toCol : Int}
    {mv : Move} {piece : Piece}
    (hfind : g.validMoves.find? (moveMatcher toRow toCol) = some mv)
    (hget : g.board.get fromRow fromCol = some piece)
    (hnoPromo : ¬(((piece.color = Color.red ∧ toRow = 0) ∨
        (piece.color = Color.black ∧ toRow = 7)) ∧ piece.king = false))
    (hnoChain : ¬(mv.capture.isSome = true ∧ getCaptureMoves
        (applyMoveBoard g.board fromRow fromCol toRow toCol piece mv.capture) toRow toCol ≠ [])) :
    movePiece g fromRow fromCol toRow toCol =
      checkWinCondition (switchPlayer (deselectPiece
        { g with board := applyMoveBoard g.board fromRow fromCol toRow toCol piece mv.capture
                 continueCapture := false })) := by
  unfold movePiece
  rw [hfind, hget]
  simp only [if_neg hnoPromo, if_neg hnoChain]

/-! ### Step equations for the scanning loops -/

theorem kingSlide_succ (b : Board) (row col dRow dCol : Int) (fuel : Nat) (dist : Int) :
    kingSlide b row col dRow dCol (fuel + 1) dist =
      if isValidPosition (row + dRow * dist) (col + dCol * dist) then
        match b.get (row + dRow * dist) (col + dCol * dist) with
        | some _ => []
        | none =>
            { row := row + dRow * dist, col := col + dCol * dist, capture := none } ::
              kingSlide b row col dRow dCol fuel (dist + 1)
      else [] := rfl

theorem kingCaptureScan_succ (b : Board) (pc : Color) (row col dRow dCol : Int)
    (fuel : Nat) (dist : Int) (ep : Option (Int × Int)) :
    kingCaptureScan b pc row col dRow dCol (fuel + 1) dist ep =
      if isValidPosition (row + dRow * dist) (col + dCol * dist) then
        match ep, b.get (row + dRow * dist) (col + dCol * dist) with
        | none, none =>
            kingCaptureScan b pc row col dRow dCol fuel (dist + 1) none
        | none, some sq =>
            if sq.color ≠ pc then
              kingCaptureScan b pc row col dRow dCol fuel (dist + 1)
                (some (row + dRow * dist, col + dCol * dist))
            else []
        | some ep0, none =>
            { row := row + dRow * dist, col := col + dCol * dist, capture := some ep0 } ::
              kingCaptureScan b pc row col dRow dCol fuel (dist + 1) (some ep0)
        | some _, some _ => []
      else [] := rfl

/-! ### Soundness of the move generators -/

theorem mem_pieceDirections {piece : Piece} {d : Int × Int}
    (hd : d ∈ pieceDirections piece) :
    (d.1 = 1 ∨ d.1 = -1) ∧ (d.2 = 1 ∨ d.2 = -1) := by
  unfold pieceDirections at hd
  split_ifs at hd
  · simp only [List.mem_cons, List.not_mem_nil, or_false] at hd
    rcases hd with rfl | rfl | rfl | rfl <;> exact ⟨by decide, by decide⟩
  · simp only [List.mem_cons, List.not_mem_nil, or_false] at hd
    rcases hd with rfl | rfl <;> exact ⟨by decide, by decide⟩
  · simp only [List.mem_cons, List.not_mem_nil, or_false] at hd
    rcases hd with rfl | rfl <;> exact ⟨by decide, by decide⟩

theorem kingSlide_sound {b : Board} {row col dRow dCol : Int}
    (hdr : dRow = 1 ∨ dRow = -1) (hdc : dCol = 1 ∨ dCol = -1) :
    ∀ (fuel : Nat) (dist : Int), ∀ m ∈ kingSlide b row col dRow dCol fuel dist,
      isValidPosition m.row m.col = true ∧ b.get m.row m.col = none ∧
      (m.row + m.col) % 2 = (row + col) % 2 ∧ m.capture = none := by
  intro fuel
  induction fuel with
  | zero =>
    intro dist m hm
    exact absurd hm (List.not_mem_nil m)
  | succ n ih =>
    intro dist m hm
    rw [kingSlide_succ] at hm
    by_cases hv : isValidPosition (row + dRow * dist) (col + dCol * dist) = true
    · rw [if_pos hv] at hm
      rcases hbg : b.get (row + dRow * dist) (col + dCol * dist) with _ | sq <;> rw [hbg] at hm
      · rcases List.mem_cons.mp hm with h | h
        · subst h
          refine ⟨hv, hbg, ?_, rfl⟩
          have hpar : (row + dRow * dist + (col + dCol * dist)) % 2 = (row + col) % 2 := by
            rcases hdr with h1 | h1 <;> rcases hdc with h2 | h2 <;>
              subst h1 <;> subst h2 <;> omega
          exact hpar
        · exact ih (dist + 1) m h
      · exact absurd hm (List.not_mem_nil m)
    · rw [if_neg hv] at hm
      exact absurd hm (List.not_mem_nil m)

theorem kingCaptureScan_sound {b : Board} {pc : Color} {row col dRow dCol : Int}
    (hdr : dRow = 1 ∨ dRow = -1) (hdc : dCol = 1 ∨ dCol = -1) :
    ∀ (fuel : Nat) (dist : Int) (ep : Option (Int × Int)),
      (∀ p, ep = some p → ∃ q, b.get p.1 p.2 = some q ∧ q.color ≠ pc) →
      ∀ m ∈ kingCaptureScan b pc row col dRow dCol fuel dist ep,
        isValidPosition m.row m.col = true ∧ b.get m.row m.col = none ∧
        (m.row + m.col) % 2 = (row + col) % 2 ∧
        ∃ cap, m.capture = some cap ∧ ∃ q, b.get cap.1 cap.2 = some q ∧ q.color ≠ pc := by
  intro fuel
  induction fuel with
  | zero =>
    intro dist ep hep m hm
    exact absurd hm (List.not_mem_nil m)
  | succ n ih =>
    intro dist ep hep m hm
    rw [kingCaptureScan_succ] at hm
    by_cases hv : isValidPosition (row + dRow * dist) (col + dCol * dist) = true
    · rw [if_pos hv] at hm
      cases ep with
      | none =>
        rcases hbg : b.get (row + dRow * dist) (col + dCol * dist) with _ | sq <;>
          rw [hbg] at hm
        · exact ih (dist + 1) none (fun p hp => Option.noConfusion hp) m hm
        · have hm2 : m ∈ (if sq.color ≠ pc then
              kingCaptureScan b pc row col dRow dCol n (dist + 1)
                (some (row + dRow * dist, col + dCol * dist))
            else []) := hm
          by_cases hsq : sq.color = pc
          · rw [if_neg (not_not_intro hsq)] at hm2
            exact absurd hm2 (List.not_mem_nil m)
          · rw [if_pos hsq] at hm2
            refine ih (dist + 1) _ ?_ m hm2
            intro p hp
            cases hp
            exact ⟨sq, hbg, hsq⟩
      | some ep0 =>
        rcases hbg : b.get (row + dRow * dist) (col + dCol * dist) with _ | sq <;>
          rw [hbg] at hm
        · rcases List.mem_cons.mp hm with h | h
          · subst h
            refine ⟨hv, hbg, ?_, ep0, rfl, hep ep0 rfl⟩
            have hpar : (row + dRow * dist + (col + dCol * dist)) % 2 = (row + col) % 2 := by
              rcases hdr with h1 | h1 <;> rcases hdc with h2 | h2 <;>
                subst h1 <;> subst h2 <;> omega
            exact hpar
          · exact ih (dist + 1) (some ep0) (fun p hp => by cases hp; exact hep ep0 rfl) m h
        · exact absurd hm (List.not_mem_nil m)
    · rw [if_neg hv] at hm
      exact absurd hm (List.not_mem_nil m)

theorem getCaptureMoves_sound {b : Board} {row col : Int} {piece : Piece}
    (hp : b.get row col = some piece) :
    ∀ m ∈ getCaptureMoves b row col,
      isValidPosition m.row m.col = true ∧ b.get m.row m.col = none ∧
      (m.row + m.col) % 2 = (row + col) % 2 ∧
      ∃ cap, m.capture = some cap ∧
        ∃ q, b.get cap.1 cap.2 = some q ∧ q.color ≠ piece.color := by
  intro m hm
  unfold getCaptureMoves at hm
  rw [hp] at hm
  rcases List.mem_flatMap.mp hm with ⟨d, hdmem, hmd⟩
  obtain ⟨hdr, hdc⟩ := mem_pieceDirections hdmem
  by_cases hk : piece.king = true
  · rw [if_pos hk] at hmd
    exact kingCaptureScan_sound hdr hdc 8 1 none (by intro p hp0; exact absurd hp0 (by simp)) m hmd
  · rw [if_neg hk] at hmd
    dsimp only at hmd
    by_cases hvv : isValidPosition (row + d.1) (col + d.2) = true ∧
        isValidPosition (row + d.1 * 2) (col + d.2 * 2) = true
    · rw [if_pos hvv] at hmd
      rcases hbj : b.get (row + d.1) (col + d.2) with _ | jumped <;> rw [hbj] at hmd
      · exact absurd hmd (List.not_mem_nil m)
      · rcases hbl : b.get (row + d.1 * 2) (col + d.2 * 2) with _ | land <;> rw [hbl] at hmd
        · have hmd2 : m ∈ (if jumped.color ≠ piece.color then
              [{ row := row + d.1 * 2, col := col + d.2 * 2,
                 capture := some (row + d.1, col + d.2) }]
            else ([] : List Move)) := hmd
          by_cases hjc : jumped.color = piece.color
          · rw [if_neg (not_not_intro hjc)] at hmd2
            exact absurd hmd2 (List.not_mem_nil m)
          · rw [if_pos hjc] at hmd2
            rcases List.mem_singleton.mp hmd2 with rfl
            refine ⟨hvv.2, hbl, ?_, (row + d.1, col + d.2), rfl, jumped, hbj, hjc⟩
            have hpar : (row + d.1 * 2 + (col + d.2 * 2)) % 2 = (row + col) % 2 := by
              omega
            exact hpar
        · exact absurd hmd (List.not_mem_nil m)
    · rw [if_neg hvv] at hmd
      exact absurd hmd (List.not_mem_nil m)

theorem getNormalMoves_sound {b : Board} {row col : Int} {piece : Piece}
    (hp : b.get row col = some piece) :
    ∀ m ∈ getNormalMoves b row col,
      isValidPosition m.row m.col = true ∧ b.get m.row m.col = none ∧
      (m.row + m.col) % 2 = (row + col) % 2 ∧ m.capture = none := by
  intro m hm
  unfold getNormalMoves at hm
  rw [hp] at hm
  rcases List.mem_flatMap.mp hm with ⟨d, hdmem, hmd⟩
  obtain ⟨hdr, hdc⟩ := mem_pieceDirections hdmem
  by_cases hk : piece.king = true
  · rw [if_pos hk] at hmd
    exact kingSlide_sound hdr hdc 8 1 m hmd
  · rw [if_neg hk] at hmd
    dsimp only at hmd
    by_cases hvv : isValidPosition (row + d.1) (col + d.2) = true ∧
        b.get (row + d.1) (col + d.2) = none
    · rw [if_pos hvv] at hmd
      rcases List.mem_singleton.mp hmd with rfl
      refine ⟨hvv.1, hvv.2, ?_, rfl⟩
      have hpar : (row + d.1 + (col + d.2)) % 2 = (row + col) % 2 := by
        rcases hdr with h1 | h1 <;> rcases hdc with h2 | h2 <;> rw [h1, h2] <;> omega
      exact hpar
    · rw [if_neg hvv] at hmd
      exact absurd hmd (List.not_mem_nil m)

theorem getCaptureMoves_of_empty {b : Board} {row col : Int}
    (h : b.get row col = none) : getCaptureMoves b row col = [] := by
  unfold getCaptureMoves
  rw [h]

theorem getCaptureMoves_capture_isSome {b : Board} {row col : Int} :
    ∀ m ∈ getCaptureMoves b row col, m.capture.isSome = true := by
  intro m hm
  rcases hp : b.get row col with _ | piece
  · rw [getCaptureMoves_of_empty hp] at hm
    exact absurd hm (List.not_mem_nil m)
  · obtain ⟨-, -, -, cap, hcap, -⟩ := getCaptureMoves_sound hp m hm
    rw [hcap]
    rfl

theorem mem_getAllCaptureMoves {b : Board} {row col : Int} {q : Piece}
    (hq : b.get row col = some q) {m : Move} (hm : m ∈ getCaptureMoves b row col) :
    m ∈ getAllCaptureMoves b q.color := by
  obtain ⟨h0, h1, h2, h3⟩ := Board.valid_of_get_eq_some hq
  have hr : ((row.toNat : ℕ) : ℤ) = row := Int.toNat_of_nonneg h0
  have hc : ((col.toNat : ℕ) : ℤ) = col := Int.toNat_of_nonneg h2
  unfold getAllCaptureMoves
  refine List.mem_flatMap.mpr ⟨row.toNat, List.mem_range.mpr (by omega),
    List.mem_flatMap.mpr ⟨col.toNat, List.mem_range.mpr (by omega), ?_⟩⟩
  rw [hr, hc, hq]
  have hgoal : m ∈ (if q.color = q.color then getCaptureMoves b row col
      else ([] : List Move)) := by
    rw [if_pos rfl]
    exact hm
  exact hgoal

theorem getCaptureMoves_eq_nil {b : Board} {side : Color}
    (hall : getAllCaptureMoves b side = []) {row col : Int} {q : Piece}
    (hq : b.get row col = some q) (hcolor : q.color = side) :
    getCaptureMoves b row col = [] := by
  rcases hcm : getCaptureMoves b row col with _ | ⟨m, rest⟩
  · rfl
  · exfalso
    have hmem : m ∈ getCaptureMoves b row col := by
      rw [hcm]
      exact List.mem_cons_self m rest
    have hmem2 := mem_getAllCaptureMoves hq hmem
    rw [hcolor, hall] at hmem2
    exact List.not_mem_nil m hmem2

theorem getValidMoves_forced {b : Board} {row col : Int} {piece : Piece}
    (hp : b.get row col = some piece)
    (hall : getAllCaptureMoves b piece.color ≠ []) :
    getValidMoves b row col = getCaptureMoves b row col := by
  unfold getValidMoves
  rw [hp]
  show (if getAllCaptureMoves b piece.color ≠ [] then getCaptureMoves b row col
      else getCaptureMoves b row col ++ getNormalMoves b row col) =
    getCaptureMoves b row col
  rw [if_pos hall]

theorem getValidMoves_unforced {b : Board} {row col : Int} {piece : Piece}
    (hp : b.get row col = some piece)
    (hall : getAllCaptureMoves b piece.color = []) :
    getValidMoves b row col = getCaptureMoves b row col ++ getNormalMoves b row col := by
  unfold getValidMoves
  rw [hp]
  show (if getAllCaptureMoves b piece.color ≠ [] then getCaptureMoves b row col
      else getCaptureMoves b row col ++ getNormalMoves b row col) =
    getCaptureMoves b row col ++ getNormalMoves b row col
  rw [if_neg (fun hcon => hcon hall)]

theorem getValidMoves_sound {b : Board} {row col : Int} {piece : Piece}
    (hp : b.get row col = some piece) :
    ∀ m ∈ getValidMoves b row col,
      isValidPosition m.row m.col = true ∧ b.get m.row m.col = none ∧
      (m.row + m.col) % 2 = (row + col) % 2 ∧
      (m.capture = none ∨ ∃ cap, m.capture = some cap ∧
        ∃ q, b.get cap.1 cap.2 = some q ∧ q.color ≠ piece.color) := by
  intro m hm
  by_cases hall : getAllCaptureMoves b piece.color = []
  · rw [getValidMoves_unforced hp hall] at hm
    rcases List.mem_append.mp hm with h | h
    · obtain ⟨h1, h2, h3, h4⟩ := getCaptureMoves_sound hp m h
      exact ⟨h1, h2, h3, Or.inr h4⟩
    · obtain ⟨h1, h2, h3, h4⟩ := getNormalMoves_sound hp m h
      exact ⟨h1, h2, h3, Or.inl h4⟩
  · rw [getValidMoves_forced hp hall] at hm
    obtain ⟨h1, h2, h3, h4⟩ := getCaptureMoves_sound hp m hm
    exact ⟨h1, h2, h3, Or.inr h4⟩

/-! ### C1: the forced-capture rule -/

/-- C1.  For every board and every square holding a piece: if the union of
capture moves over all pieces of that piece's side (`getAllCaptureMoves`) is
non-empty, `getValidMoves` returns exactly `getCaptureMoves` for that square;
if no captures exist anywhere for the side, it returns the piece's capture
moves followed by its normal moves.  Moreover, for any side that has at least
one piece with a non-empty legal-move list (which `checkWinCondition`
guarantees for the side to move of every in-progress game), the side's
capture set is non-empty iff every legal-move list of that side contains only
capture moves. -/
theorem claim1_forced_capture (b : Board) (row col : Int) (piece : Piece)
    (hpiece : b.get row col = some piece) :
    (getAllCaptureMoves b piece.color ≠ [] →
      getValidMoves b row col = getCaptureMoves b row col) ∧
    (getAllCaptureMoves b piece.color = [] →
      getValidMoves b row col = getCaptureMoves b row col ++ getNormalMoves b row col) ∧
    (∀ side : Color, playerHasValidMoves b (some side) = true →
      (getAllCaptureMoves b side ≠ [] ↔
        ∀ (r c : Int) (q : Piece), b.get r c = some q → q.color = side →
          ∀ m ∈ getValidMoves b r c, m.capture.isSome = true)) := by
  refine ⟨fun hall => getValidMoves_forced hpiece hall,
          fun hall => getValidMoves_unforced hpiece hall, ?_⟩
  intro side hmoves
  constructor
  · intro hall r c q hq hcolor m hm
    rw [getValidMoves_forced hq (by rw [hcolor]; exact hall)] at hm
    exact getCaptureMoves_capture_isSome m hm
  · intro hAll
    by_contra hcontra
    unfold playerHasValidMoves at hmoves
    rw [List.any_eq_true] at hmoves
    obtain ⟨r0, hr0, hmoves⟩ := hmoves
    rw [List.any_eq_true] at hmoves
    obtain ⟨c0, hc0, hmoves⟩ := hmoves
    rcases hbq : b.get (r0 : Int) (c0 : Int) with _ | q0 <;> rw [hbq] at hmoves
    · exact Bool.noConfusion hmoves
    · have hmoves2 : (decide (some q0.color = some side) &&
          decide (getValidMoves b (r0 : Int) (c0 : Int) ≠ [])) = true := hmoves
      rw [Bool.and_eq_true, decide_eq_true_eq, decide_eq_true_eq] at hmoves2
      obtain ⟨hcolor0, hne⟩ := hmoves2
      have hcolor0q : q0.color = side := Option.some_inj.mp hcolor0
      have hcap0 : getCaptureMoves b (r0 : Int) (c0 : Int) = [] :=
        getCaptureMoves_eq_nil hcontra hbq hcolor0q
      have hvm : getValidMoves b (r0 : Int) (c0 : Int) =
          getNormalMoves b (r0 : Int) (c0 : Int) := by
        rw [getValidMoves_unforced hbq (by rw [hcolor0q]; exact hcontra), hcap0,
          List.nil_append]
      rw [hvm] at hne
      obtain ⟨m, hmmem⟩ := List.exists_mem_of_ne_nil _ hne
      have hnone := (getNormalMoves_sound hbq m hmmem).2.2.2
      have hsome := hAll (r0 : Int) (c0 : Int) q0 hbq hcolor0q m (by rw [hvm]; exact hmmem)
      rw [hnone] at hsome
      exact Bool.noConfusion hsome

/-- Witness for C1 on the initial board: no captures exist for red, so the
valid moves of the red piece at (5,1) are its captures followed by its normal
moves. -/
theorem claim1_forced_capture_witness :
    getValidMoves initBoard 5 1 =
      getCaptureMoves initBoard 5 1 ++ getNormalMoves initBoard 5 1 :=
  (claim1_forced_capture initBoard 5 1 { color := Color.red, king := false }
    (by decide)).2.1 (by decide)

/-! ### Board mutation lemmas -/

theorem isValidPosition_eq_true {r c : Int} :
    isValidPosition r c = true ↔ 0 ≤ r ∧ r < 8 ∧ 0 ≤ c ∧ c < 8 := by
  unfold isValidPosition
  simp only [Bool.and_eq_true, decide_eq_true_eq, and_assoc]

theorem get_set_skip {b : Board} {row col : Int} {v : Option Piece} {r c : Int}
    (h : ¬(r = row ∧ c = col)) : (b.set row col v).get r c = b.get r c := by
  rw [Board.get_set, if_neg (fun hcon => h ⟨hcon.2.2.2.2.1, hcon.2.2.2.2.2⟩)]

theorem get_set_hit {b : Board} {row col : Int} {v : Option Piece}
    (h : 0 ≤ row ∧ row < 8 ∧ 0 ≤ col ∧ col < 8) :
    (b.set row col v).get row col = v := by
  rw [Board.get_set, if_pos ⟨h.1, h.2.1, h.2.2.1, h.2.2.2, rfl, rfl⟩]

theorem applyMoveBoard_none_eq (b : Board) (fr fc tr tc : Int) (piece : Piece) :
    applyMoveBoard b fr fc tr tc piece none =
      if ((piece.color = Color.red ∧ tr = 0) ∨ (piece.color = Color.black ∧ tr = 7)) ∧
          piece.king = false then
        if ((b.set tr tc (some piece)).set fr fc none).get tr tc = some piece then
          ((b.set tr tc (some piece)).set fr fc none).set tr tc
            (some { piece with king := true })
        else (b.set tr tc (some piece)).set fr fc none
      else (b.set tr tc (some piece)).set fr fc none := rfl

theorem applyMoveBoard_some_eq (b : Board) (fr fc tr tc : Int) (piece : Piece)
    (cap : Int × Int) :
    applyMoveBoard b fr fc tr tc piece (some cap) =
      if ((piece.color = Color.red ∧ tr = 0) ∨ (piece.color = Color.black ∧ tr = 7)) ∧
          piece.king = false then
        if (((b.set tr tc (some piece)).set fr fc none).set cap.1 cap.2 none).get tr tc =
            some piece then
          (((b.set tr tc (some piece)).set fr fc none).set cap.1 cap.2 none).set tr tc
            (some { piece with king := true })
        else ((b.set tr tc (some piece)).set fr fc none).set cap.1 cap.2 none
      else ((b.set tr tc (some piece)).set fr fc none).set cap.1 cap.2 none := rfl

/-- Frame property of the board mutation: any square other than the origin,
the destination, and the captured square is untouched. -/
theorem applyMoveBoard_get_other (b : Board) (fr fc tr tc : Int) (piece : Piece)
    (capture : Option (Int × Int)) (r c : Int)
    (h1 : ¬(r = fr ∧ c = fc)) (h2 : ¬(r = tr ∧ c = tc))
    (h3 : ∀ cap, capture = some cap → ¬(r = cap.1 ∧ c = cap.2)) :
    (applyMoveBoard b fr fc tr tc piece capture).get r c = b.get r c := by
  rcases capture with _ | cap
  · rw [applyMoveBoard_none_eq]
    by_cases hP : ((piece.color = Color.red ∧ tr = 0) ∨
        (piece.color = Color.black ∧ tr = 7)) ∧ piece.king = false
    · rw [if_pos hP]
      by_cases hQ : ((b.set tr tc (some piece)).set fr fc none).get tr tc = some piece
      · rw [if_pos hQ, get_set_skip h2, get_set_skip h1, get_set_skip h2]
      · rw [if_neg hQ, get_set_skip h1, get_set_skip h2]
    · rw [if_neg hP, get_set_skip h1, get_set_skip h2]
  · have h3c := h3 cap rfl
    rw [applyMoveBoard_some_eq]
    by_cases hP : ((piece.color = Color.red ∧ tr = 0) ∨
        (piece.color = Color.black ∧ tr = 7)) ∧ piece.king = false
    · rw [if_pos hP]
      by_cases hQ : (((b.set tr tc (some piece)).set fr fc none).set cap.1 cap.2 none).get
          tr tc = some piece
      · rw [if_pos hQ, get_set_skip h2, get_set_skip h3c, get_set_skip h1, get_set_skip h2]
      · rw [if_neg hQ, get_set_skip h3c, get_set_skip h1, get_set_skip h2]
    · rw [if_neg hP, get_set_skip h3c, get_set_skip h1, get_set_skip h2]

theorem applyMoveBoard_origin_ne_dest {b : Board} {fr fc tr tc : Int} {piece : Piece}
    (hget : b.get fr fc = some piece) (hdest : b.get tr tc = none) :
    ¬(fr = tr ∧ fc = tc) := by
  intro hcon
  rw [hcon.1, hcon.2, hdest] at hget
  exact Option.noConfusion hget

/-- The origin square is emptied. -/
theorem applyMoveBoard_get_from {b : Board} {fr fc tr tc : Int} {piece : Piece}
    {capture : Option (Int × Int)}
    (hget : b.get fr fc = some piece) (hdest : b.get tr tc = none)
    (hcap : ∀ cap, capture = some cap → ∃ q, b.get cap.1 cap.2 = some q ∧ q ≠ piece) :
    (applyMoveBoard b fr fc tr tc piece capture).get fr fc = none := by
  have hft : ¬(fr = tr ∧ fc = tc) := applyMoveBoard_origin_ne_dest hget hdest
  have hfb := Board.valid_of_get_eq_some hget
  rcases capture with _ | cap
  · rw [applyMoveBoard_none_eq]
    by_cases hP : ((piece.color = Color.red ∧ tr = 0) ∨
        (piece.color = Color.black ∧ tr = 7)) ∧ piece.king = false
    · rw [if_pos hP]
      by_cases hQ : ((b.set tr tc (some piece)).set fr fc none).get tr tc = some piece
      · rw [if_pos hQ, get_set_skip hft, get_set_hit hfb]
      · rw [if_neg hQ, get_set_hit hfb]
    · rw [if_neg hP, get_set_hit hfb]
  · obtain ⟨q, hq, hqne⟩ := hcap cap rfl
    have hfcap : ¬(fr = cap.1 ∧ fc = cap.2) := by
      intro hcon
      rw [← hcon.1, ← hcon.2, hget] at hq
      exact hqne (Option.some_inj.mp hq).symm
    rw [applyMoveBoard_some_eq]
    by_cases hP : ((piece.color = Color.red ∧ tr = 0) ∨
        (piece.color = Color.black ∧ tr = 7)) ∧ piece.king = false
    · rw [if_pos hP]
      by_cases hQ : (((b.set tr tc (some piece)).set fr fc none).set cap.1 cap.2 none).get
          tr tc = some piece
      · rw [if_pos hQ, get_set_skip hft, get_set_skip hfcap, get_set_hit hfb]
      · rw [if_neg hQ, get_set_skip hfcap, get_set_hit hfb]
    · rw [if_neg hP, get_set_skip hfcap, get_set_hit hfb]

/-- The captured square is emptied. -/
theorem applyMoveBoard_get_cap {b : Board} {fr fc tr tc : Int} {piece : Piece}
    {cap : Int × Int} {q : Piece}
    (hdest : b.get tr tc = none) (hq : b.get cap.1 cap.2 = some q) :
    (applyMoveBoard b fr fc tr tc piece (some cap)).get cap.1 cap.2 = none := by
  have hcapb := Board.valid_of_get_eq_some hq
  have hct : ¬(cap.1 = tr ∧ cap.2 = tc) := by
    intro hcon
    rw [hcon.1, hcon.2, hdest] at hq
    exact Option.noConfusion hq
  rw [applyMoveBoard_some_eq]
  by_cases hP : ((piece.color = Color.red ∧ tr = 0) ∨
      (piece.color = Color.black ∧ tr = 7)) ∧ piece.king = false
  · rw [if_pos hP]
    by_cases hQ : (((b.set tr tc (some piece)).set fr fc none).set cap.1 cap.2 none).get
        tr tc = some piece
    · rw [if_pos hQ, get_set_skip hct, get_set_hit hcapb]
    · rw [if_neg hQ, get_set_hit hcapb]
  · rw [if_neg hP, get_set_hit hcapb]

/-- The destination square after the mutation: the moved piece sits there, as
a fresh king when the move promotes. -/
theorem applyMoveBoard_get_to {b : Board} {fr fc tr tc : Int} {piece : Piece}
    {capture : Option (Int × Int)}
    (hget : b.get fr fc = some piece) (hdest : b.get tr tc = none)
    (hvalid : isValidPosition tr tc = true)
    (hcap : ∀ cap, capture = some cap → ∃ q, b.get cap.1 cap.2 = some q ∧ q ≠ piece) :
    (applyMoveBoard b fr fc tr tc piece capture).get tr tc =
      (if ((piece.color = Color.red ∧ tr = 0) ∨ (piece.color = Color.black ∧ tr = 7)) ∧
          piece.king = false then some { piece with king := true } else some piece) := by
  have hft : ¬(fr = tr ∧ fc = tc) := applyMoveBoard_origin_ne_dest hget hdest
  have htf : ¬(tr = fr ∧ tc = fc) := fun hcon => hft ⟨hcon.1.symm, hcon.2.symm⟩
  have htb := isValidPosition_eq_true.mp hvalid
  rcases capture with _ | cap
  · have hQ : ((b.set tr tc (some piece)).set fr fc none).get tr tc = some piece := by
      rw [get_set_skip htf, get_set_hit htb]
    rw [applyMoveBoard_none_eq]
    by_cases hP : ((piece.color = Color.red ∧ tr = 0) ∨
        (piece.color = Color.black ∧ tr = 7)) ∧ piece.king = false
    · rw [if_pos hP, if_pos hQ, get_set_hit htb, if_pos hP]
    · rw [if_neg hP, hQ, if_neg hP]
  · obtain ⟨q, hq, hqne⟩ := hcap cap rfl
    have htcap : ¬(tr = cap.1 ∧ tc = cap.2) := by
      intro hcon
      rw [← hcon.1, ← hcon.2, hdest] at hq
      exact Option.noConfusion hq
    have hQ : (((b.set tr tc (some piece)).set fr fc none).set cap.1 cap.2 none).get
        tr tc = some piece := by
      rw [get_set_skip htcap, get_set_skip htf, get_set_hit htb]
    rw [applyMoveBoard_some_eq]
    by_cases hP : ((piece.color = Color.red ∧ tr = 0) ∨
        (piece.color = Color.black ∧ tr = 7)) ∧ piece.king = false
    · rw [if_pos hP, if_pos hQ, get_set_hit htb, if_pos hP]
    · rw [if_neg hP, hQ, if_neg hP]

/-! ### End-of-turn and chain-state lemmas -/

theorem endTurn_fields (g : GameState) (h : g.continueCapture = false) :
    (checkWinCondition (switchPlayer (deselectPiece g))).continueCapture = false ∧
    (checkWinCondition (switchPlayer (deselectPiece g))).selectedSquare = none ∧
    (checkWinCondition (switchPlayer (deselectPiece g))).currentPlayer =
      (if g.currentPlayer = some Color.red then some Color.black else some Color.red) ∧
    (checkWinCondition (switchPlayer (deselectPiece g))).board = g.board := by
  rw [deselectPiece_of_not_chain h]
  refine ⟨?_, ?_, ?_, ?_⟩
  · rw [checkWinCondition_continueCapture]
    exact h
  · rw [checkWinCondition_selectedSquare]
    rfl
  · rw [checkWinCondition_currentPlayer]
    rfl
  · rw [checkWinCondition_board]
    rfl

theorem movePiece_board {g : GameState} {fromRow fromCol toRow toCol : Int}
    {mv : Move} {piece : Piece}
    (hfind : g.validMoves.find? (moveMatcher toRow toCol) = some mv)
    (hget : g.board.get fromRow fromCol = some piece) :
    (movePiece g fromRow fromCol toRow toCol).board =
      applyMoveBoard g.board fromRow fromCol toRow toCol piece mv.capture := by
  by_cases hP : ((piece.color = Color.red ∧ toRow = 0) ∨
      (piece.color = Color.black ∧ toRow = 7)) ∧ piece.king = false
  · rw [movePiece_promoted hfind hget hP.1 hP.2, checkWinCondition_board]
    rfl
  · by_cases hC : mv.capture.isSome = true ∧ getCaptureMoves
        (applyMoveBoard g.board fromRow fromCol toRow toCol piece mv.capture) toRow toCol ≠ []
    · rw [movePiece_chain hfind hget hP hC.1 hC.2]
      rfl
    · rw [movePiece_endTurn hfind hget hP hC, checkWinCondition_board]
      rfl

/-! ### C2: promotion always ends the turn immediately -/

/-- C2.  Whenever `movePiece` accepts a move whose mover is a non-king red
piece landing on row 0 or a non-king black piece landing on row 7, the turn
ends at once: the chain flag is cleared, the selection is cleared, and the
side to move switches — regardless of whether further captures would be
available from the landing square, so chain continuation never happens on a
promoting move. -/
theorem claim2_promotion_ends_turn (g : GameState) (fromRow fromCol toRow toCol : Int)
    (mv : Move) (piece : Piece)
    (hfind : g.validMoves.find? (moveMatcher toRow toCol) = some mv)
    (hget : g.board.get fromRow fromCol = some piece)
    (hking : piece.king = false)
    (hpromo : (piece.color = Color.red ∧ toRow = 0) ∨
      (piece.color = Color.black ∧ toRow = 7)) :
    (movePiece g fromRow fromCol toRow toCol).continueCapture = false ∧
    (movePiece g fromRow fromCol toRow toCol).selectedSquare = none ∧
    (movePiece g fromRow fromCol toRow toCol).currentPlayer =
      (if g.currentPlayer = some Color.red then some Color.black else some Color.red) := by
  rw [movePiece_promoted hfind hget hpromo hking]
  have h := endTurn_fields
    { g with
      board := applyMoveBoard g.board fromRow fromCol toRow toCol piece mv.capture
      continueCapture := false } rfl
  exact ⟨h.1, h.2.1, h.2.2.1⟩

/-- Witness for C2: on `boardPromo`, red captures (2,1) → (0,3) and promotes;
the turn ends (chain flag clear, selection clear, black to move) even though a
further capture of (1,4) is available from the landing square (0,3). -/
theorem claim2_promotion_ends_turn_witness :
    ((movePiece (selectPiece (baseState boardPromo Color.red) 2 1) 2 1 0 3).continueCapture =
        false ∧
      (movePiece (selectPiece (baseState boardPromo Color.red) 2 1) 2 1 0 3).selectedSquare =
        none ∧
      (movePiece (selectPiece (baseState boardPromo Color.red) 2 1) 2 1 0 3).currentPlayer =
        (if (selectPiece (baseState boardPromo Color.red) 2 1).currentPlayer = some Color.red
          then some Color.black else some Color.red)) ∧
    getCaptureMoves (movePiece (selectPiece (baseState boardPromo Color.red) 2 1) 2 1 0 3).board
      0 3 ≠ [] := by
  constructor
  · exact claim2_promotion_ends_turn (selectPiece (baseState boardPromo Color.red) 2 1)
      2 1 0 3 { row := 0, col := 3, capture := some (1, 2) } { color := Color.red, king := false }
      (by decide) (by decide) (by decide) (by decide)
  · decide

/-! ### C4: the termination check -/

/-- C4.  After a completed turn `checkWinCondition` runs on the switched
state: if red has no pieces, black is declared winner and the game ends; if
black has no pieces, red wins; otherwise if the (new) side to move has no
valid move on any of its pieces, the other side wins; otherwise the state is
unchanged and play continues. -/
theorem claim4_termination (g : GameState) (c : Color) (hc : g.currentPlayer = some c) :
    (countPieces g.board Color.red = 0 →
      (checkWinCondition g).gameOver = true ∧
      (checkWinCondition g).winner = some Color.black) ∧
    (countPieces g.board Color.red ≠ 0 → countPieces g.board Color.black = 0 →
      (checkWinCondition g).gameOver = true ∧
      (checkWinCondition g).winner = some Color.red) ∧
    (countPieces g.board Color.red ≠ 0 → countPieces g.board Color.black ≠ 0 →
      playerHasValidMoves g.board g.currentPlayer = false →
      (checkWinCondition g).gameOver = true ∧
      (checkWinCondition g).winner = some c.other) ∧
    (countPieces g.board Color.red ≠ 0 → countPieces g.board Color.black ≠ 0 →
      playerHasValidMoves g.board g.currentPlayer = true →
      checkWinCondition g = g) := by
  refine ⟨?_, ?_, ?_, ?_⟩
  · intro h0
    unfold checkWinCondition
    rw [if_pos h0]
    exact ⟨rfl, rfl⟩
  · intro h0 h1
    unfold checkWinCondition
    rw [if_neg h0, if_pos h1]
    exact ⟨rfl, rfl⟩
  · intro h0 h1 h2
    unfold checkWinCondition
    rw [if_neg h0, if_neg h1, if_neg (by rw [h2]; exact Bool.false_ne_true)]
    refine ⟨rfl, ?_⟩
    show some (if g.currentPlayer = some Color.red then Color.black else Color.red) =
      some c.other
    rw [hc]
    cases c
    · rw [if_pos rfl]
      rfl
    · rw [if_neg (fun hcon => Color.noConfusion (Option.some_inj.mp hcon))]
      rfl
  · intro h0 h1 h2
    unfold checkWinCondition
    rw [if_neg h0, if_neg h1, if_pos h2]

/-- Witness for C4: black to move on a board with no red pieces — black is
declared winner and the game ends. -/
theorem claim4_termination_witness :
    (checkWinCondition (baseState boardNoRed Color.black)).gameOver = true ∧
    (checkWinCondition (baseState boardNoRed Color.black)).winner = some Color.black :=
  (claim4_termination (baseState boardNoRed Color.black) Color.black rfl).1 (by decide)

/-! ### C5: move application is atomic -/

theorem stored_move_sound {g : GameState} {fromRow fromCol : Int} {piece : Piece} {mv : Move}
    (hvm : g.validMoves = getValidMoves g.board fromRow fromCol ∨
      g.validMoves = getCaptureMoves g.board fromRow fromCol)
    (hmem : mv ∈ g.validMoves)
    (hget : g.board.get fromRow fromCol = some piece) :
    isValidPosition mv.row mv.col = true ∧ g.board.get mv.row mv.col = none ∧
    (mv.capture = none ∨ ∃ cap, mv.capture = some cap ∧
      ∃ q, g.board.get cap.1 cap.2 = some q ∧ q.color ≠ piece.color) := by
  rcases hvm with h | h <;> rw [h] at hmem
  · obtain ⟨h1, h2, -, h4⟩ := getValidMoves_sound hget mv hmem
    exact ⟨h1, h2, h4⟩
  · obtain ⟨h1, h2, -, h4⟩ := getCaptureMoves_sound hget mv hmem
    exact ⟨h1, h2, Or.inr h4⟩

/-- C5.  `movePiece` is atomic.  A destination absent from the stored
valid-move list changes nothing at all; a destination present in the list
(computed for the current selection) fully commits: origin emptied, captured
square emptied, destination holding the moved (possibly promoted) piece, and
the turn bookkeeping completed as either promotion-end, chain continuation,
or plain end of turn.  There is no partial-failure state. -/
theorem claim5_atomicity (g : GameState) (fromRow fromCol toRow toCol : Int) :
    (g.validMoves.find? (moveMatcher toRow toCol) = none →
      movePiece g fromRow fromCol toRow toCol = g) ∧
    (∀ (mv : Move) (piece : Piece),
      (g.validMoves = getValidMoves g.board fromRow fromCol ∨
        g.validMoves = getCaptureMoves g.board fromRow fromCol) →
      g.validMoves.find? (moveMatcher toRow toCol) = some mv →
      g.board.get fromRow fromCol = some piece →
      (movePiece g fromRow fromCol toRow toCol).board.get fromRow fromCol = none ∧
      (∀ cap, mv.capture = some cap →
        (movePiece g fromRow fromCol toRow toCol).board.get cap.1 cap.2 = none) ∧
      (((piece.color = Color.red ∧ toRow = 0) ∨ (piece.color = Color.black ∧ toRow = 7)) ∧
          piece.king = false →
        (movePiece g fromRow fromCol toRow toCol).board.get toRow toCol =
          some { piece with king := true } ∧
        (movePiece g fromRow fromCol toRow toCol).continueCapture = false ∧
        (movePiece g fromRow fromCol toRow toCol).selectedSquare = none ∧
        (movePiece g fromRow fromCol toRow toCol).currentPlayer =
          (if g.currentPlayer = some Color.red then some Color.black else some Color.red)) ∧
      (¬(((piece.color = Color.red ∧ toRow = 0) ∨ (piece.color = Color.black ∧ toRow = 7)) ∧
          piece.king = false) →
        (movePiece g fromRow fromCol toRow toCol).board.get toRow toCol = some piece ∧
        ((mv.capture.isSome = true ∧
            getCaptureMoves (applyMoveBoard g.board fromRow fromCol toRow toCol piece
              mv.capture) toRow toCol ≠ [] →
          (movePiece g fromRow fromCol toRow toCol).continueCapture = true ∧
          (movePiece g fromRow fromCol toRow toCol).selectedSquare = some (toRow, toCol) ∧
          (movePiece g fromRow fromCol toRow toCol).currentPlayer = g.currentPlayer) ∧
         (¬(mv.capture.isSome = true ∧
            getCaptureMoves (applyMoveBoard g.board fromRow fromCol toRow toCol piece
              mv.capture) toRow toCol ≠ []) →
          (movePiece g fromRow fromCol toRow toCol).continueCapture = false ∧
          (movePiece g fromRow fromCol toRow toCol).selectedSquare = none ∧
          (movePiece g fromRow fromCol toRow toCol).currentPlayer =
            (if g.currentPlayer = some Color.red then some Color.black
             else some Color.red))))) := by
  refine ⟨movePiece_of_find_none, ?_⟩
  intro mv piece hvm hfind hget
  have hmem : mv ∈ g.validMoves := List.mem_of_find?_eq_some hfind
  have hmatch0 := List.find?_some hfind
  have hmatch : (decide (mv.row = toRow) && decide (mv.col = toCol)) = true := hmatch0
  rw [Bool.and_eq_true, decide_eq_true_eq, decide_eq_true_eq] at hmatch
  obtain ⟨hmr, hmc⟩ := hmatch
  obtain ⟨hval, hdest0, hcapfact⟩ := stored_move_sound hvm hmem hget
  rw [hmr, hmc] at hval hdest0
  have hcap : ∀ cap, mv.capture = some cap →
      ∃ q, g.board.get cap.1 cap.2 = some q ∧ q ≠ piece := by
    intro cap hcapc
    rcases hcapfact with hnone | ⟨cap0, hcap0, q, hq, hqc⟩
    · rw [hnone] at hcapc
      exact Option.noConfusion hcapc
    · rw [hcap0] at hcapc
      obtain rfl := Option.some_inj.mp hcapc
      exact ⟨q, hq, fun hqe => hqc (by rw [hqe])⟩
  have hboard := movePiece_board hfind hget
  refine ⟨?_, ?_, ?_, ?_⟩
  · rw [hboard]
    exact applyMoveBoard_get_from hget hdest0 hcap
  · intro cap hc
    obtain ⟨q, hq, -⟩ := hcap cap hc
    rw [hboard, hc]
    exact applyMoveBoard_get_cap hdest0 hq
  · intro hP
    refine ⟨?_, ?_⟩
    · rw [hboard, applyMoveBoard_get_to hget hdest0 hval hcap, if_pos hP]
    · rw [movePiece_promoted hfind hget hP.1 hP.2]
      have h := endTurn_fields
        { g with
          board := applyMoveBoard g.board fromRow fromCol toRow toCol piece mv.capture
          continueCapture := false } rfl
      exact ⟨h.1, h.2.1, h.2.2.1⟩
  · intro hP
    refine ⟨?_, ?_, ?_⟩
    · rw [hboard, applyMoveBoard_get_to hget hdest0 hval hcap, if_neg hP]
    · intro hC
      rw [movePiece_chain hfind hget hP hC.1 hC.2]
      exact ⟨rfl, rfl, rfl⟩
    · intro hC
      rw [movePiece_endTurn hfind hget hP hC]
      have h := endTurn_fields
        { g with
          board := applyMoveBoard g.board fromRow fromCol toRow toCol piece mv.capture
          continueCapture := false } rfl
      exact ⟨h.1, h.2.1, h.2.2.1⟩

/-- Witness for C5: a rejected destination leaves the state untouched, and
the opening move (5,1) → (4,0) commits fully. -/
theorem claim5_atomicity_witness :
    movePiece (baseState initBoard Color.red) 5 1 4 0 = baseState initBoard Color.red ∧
    (movePiece (selectPiece (baseState initBoard Color.red) 5 1) 5 1 4 0).board.get 5 1 =
      none ∧
    (movePiece (selectPiece (baseState initBoard Color.red) 5 1) 5 1 4 0).board.get 4 0 =
      some { color := Color.red, king := false } ∧
    (movePiece (selectPiece (baseState initBoard Color.red) 5 1) 5 1 4 0).currentPlayer =
      some Color.black := by
  have h1 := (claim5_atomicity (baseState initBoard Color.red) 5 1 4 0).1 rfl
  have h2 := (claim5_atomicity (selectPiece (baseState initBoard Color.red) 5 1) 5 1 4 0).2
    { row := 4, col := 0, capture := none } { color := Color.red, king := false }
    (Or.inl rfl) (by decide) (by decide)
  refine ⟨h1, h2.1, (h2.2.2.2 (by decide)).1, ?_⟩
  have h3 := (h2.2.2.2 (by decide)).2.2 (by decide)
  rw [h3.2.2]
  decide

/-! ### C6: chain-capture continuation and pinned selection -/

theorem handleSquareClick_to_select {g : GameState} {r c : Int} {sq : Int × Int}
    (hgo : g.gameOver = false) (hsel : g.selectedSquare = some sq)
    (hnv : isValidMove g r c = false) :
    handleSquareClick g r c = handleSelect g r c := by
  unfold handleSquareClick
  rw [hgo, hsel, hnv]
  rfl

theorem handleSelect_rejects {g : GameState} {r c : Int} {p : Piece} {sq : Int × Int}
    (hpiece : g.board.get r c = some p) (hcolor : some p.color = g.currentPlayer)
    (hchain : g.continueCapture = true) (hsel : g.selectedSquare = some sq)
    (hne : ¬(sq.1 = r ∧ sq.2 = c)) :
    handleSelect g r c = g := by
  unfold handleSelect
  simp only [hpiece, hchain, hsel]
  rw [if_pos hcolor]
  rw [if_pos]
  show (true && decide (¬(sq.1 = r ∧ sq.2 = c))) = true
  rw [Bool.true_and]
  exact decide_eq_true hne

/-- C6.  If an accepted move captures a piece, no promotion occurs, and the
landing square still has captures available, the turn continues with the same
piece: the chain flag is set, the selection is pinned to the landing square,
the side to move is unchanged, and the stored move list becomes the capture
moves of the landing square.  While the chain flag is set, clicking any own
piece on a different square than the pinned one is rejected with no state
change. -/
theorem claim6_chain_capture :
    (∀ (g : GameState) (fromRow fromCol toRow toCol : Int) (mv : Move) (piece : Piece),
      g.validMoves.find? (moveMatcher toRow toCol) = some mv →
      g.board.get fromRow fromCol = some piece →
      mv.capture.isSome = true →
      ¬(((piece.color = Color.red ∧ toRow = 0) ∨ (piece.color = Color.black ∧ toRow = 7)) ∧
        piece.king = false) →
      getCaptureMoves (applyMoveBoard g.board fromRow fromCol toRow toCol piece mv.capture)
        toRow toCol ≠ [] →
      (movePiece g fromRow fromCol toRow toCol).continueCapture = true ∧
      (movePiece g fromRow fromCol toRow toCol).selectedSquare = some (toRow, toCol) ∧
      (movePiece g fromRow fromCol toRow toCol).currentPlayer = g.currentPlayer ∧
      (movePiece g fromRow fromCol toRow toCol).validMoves =
        getCaptureMoves (applyMoveBoard g.board fromRow fromCol toRow toCol piece mv.capture)
          toRow toCol) ∧
    (∀ (g : GameState) (r c : Int) (p : Piece) (sq : Int × Int),
      g.gameOver = false → g.board.get r c = some p → some p.color = g.currentPlayer →
      isValidMove g r c = false → g.continueCapture = true → g.selectedSquare = some sq →
      ¬(sq.1 = r ∧ sq.2 = c) →
      handleSquareClick g r c = g) := by
  constructor
  · intro g fromRow fromCol toRow toCol mv piece hfind hget hcap hnp hmore
    rw [movePiece_chain hfind hget hnp hcap hmore]
    exact ⟨rfl, rfl, rfl, rfl⟩
  · intro g r c p sq hgo hpiece hcolor hnv hchain hsel hne
    rw [handleSquareClick_to_select hgo hsel hnv]
    exact handleSelect_rejects hpiece hcolor hchain hsel hne

/-- Witness for C6 on `boardChain`: red jumps (6,2) → (4,4); the chain
continues pinned to (4,4) with red still to move, and clicking the other red
man at (7,1) is rejected. -/
theorem claim6_chain_capture_witness :
    ((movePiece (selectPiece (baseState boardChain Color.red) 6 2) 6 2 4 4).continueCapture =
        true ∧
      (movePiece (selectPiece (baseState boardChain Color.red) 6 2) 6 2 4 4).selectedSquare =
        some (4, 4) ∧
      (movePiece (selectPiece (baseState boardChain Color.red) 6 2) 6 2 4 4).currentPlayer =
        (selectPiece (baseState boardChain Color.red) 6 2).currentPlayer ∧
      (movePiece (selectPiece (baseState boardChain Color.red) 6 2) 6 2 4 4).validMoves =
        getCaptureMoves (applyMoveBoard (selectPiece (baseState boardChain Color.red) 6 2).board
          6 2 4 4 { color := Color.red, king := false } (some (5, 3))) 4 4) ∧
    handleSquareClick (movePiece (selectPiece (baseState boardChain Color.red) 6 2) 6 2 4 4)
      7 1 = movePiece (selectPiece (baseState boardChain Color.red) 6 2) 6 2 4 4 := by
  constructor
  · exact claim6_chain_capture.1 (selectPiece (baseState boardChain Color.red) 6 2)
      6 2 4 4 { row := 4, col := 4, capture := some (5, 3) } { color := Color.red, king := false }
      (by decide) (by decide) (by decide) (by decide) (by decide)
  · exact claim6_chain_capture.2 (movePiece (selectPiece (baseState boardChain Color.red) 6 2)
      6 2 4 4) 7 1 { color := Color.red, king := false } (4, 4)
      (by decide) (by decide) (by decide) (by decide) (by decide) (by decide) (by decide)

/-! ### C10: frame property of move application -/

/-- C10.  Applying an accepted move changes at most three squares: the
origin, the destination, and the captured square (when the move carries one);
every other square reads exactly as before. -/
theorem claim10_frame (g : GameState) (fromRow fromCol toRow toCol : Int) (mv : Move)
    (hfind : g.validMoves.find? (moveMatcher toRow toCol) = some mv) (r c : Int)
    (h1 : ¬(r = fromRow ∧ c = fromCol)) (h2 : ¬(r = toRow ∧ c = toCol))
    (h3 : ∀ cap, mv.capture = some cap → ¬(r = cap.1 ∧ c = cap.2)) :
    (movePiece g fromRow fromCol toRow toCol).board.get r c = g.board.get r c := by
  rcases hget : g.board.get fromRow fromCol with _ | piece
  · rw [movePiece_of_origin_none hfind hget]
  · rw [movePiece_board hfind hget]
    exact applyMoveBoard_get_other g.board fromRow fromCol toRow toCol piece mv.capture
      r c h1 h2 h3

/-- Witness for C10: red's capture (6,2) → (4,4) on `boardChain` leaves the
unrelated square (7,1) untouched. -/
theorem claim10_frame_witness :
    (movePiece (selectPiece (baseState boardChain Color.red) 6 2) 6 2 4 4).board.get 7 1 =
      (selectPiece (baseState boardChain Color.red) 6 2).board.get 7 1 :=
  claim10_frame (selectPiece (baseState boardChain Color.red) 6 2) 6 2 4 4
    { row := 4, col := 4, capture := some (5, 3) } (by decide) 7 1
    (by decide) (by decide)
    (by intro cap hcap; obtain rfl := Option.some_inj.mp hcap; decide)

/-! ### C7: board-geometry invariant -/

theorem stored_move_capture_enemy {g : GameState} {fromRow fromCol : Int}
    {piece : Piece} {mv : Move}
    (hvm : g.validMoves = getValidMoves g.board fromRow fromCol ∨
      g.validMoves = getCaptureMoves g.board fromRow fromCol)
    (hmem : mv ∈ g.validMoves)
    (hget : g.board.get fromRow fromCol = some piece) :
    ∀ cap, mv.capture = some cap →
      ∃ q, g.board.get cap.1 cap.2 = some q ∧ q ≠ piece := by
  intro cap hcapc
  obtain ⟨-, -, hcapfact⟩ := stored_move_sound hvm hmem hget
  rcases hcapfact with hnone | ⟨cap0, hcap0, q, hq, hqc⟩
  · rw [hnone] at hcapc
    exact Option.noConfusion hcapc
  · rw [hcap0] at hcapc
    obtain rfl := Option.some_inj.mp hcapc
    exact ⟨q, hq, fun hqe => hqc (by rw [hqe])⟩

/-- C7.  Every piece of the initial board sits on a square with row+col even;
every move produced by the legal-move computation lands on an on-board empty
square of the same colour class as its origin; and applying an accepted move
through `movePiece` preserves "all pieces on dark squares" (in particular no
move stacks two pieces — destinations are empty — and no piece is written
off-board). -/
theorem claim7_board_geometry :
    (∀ r c : Fin 8, (initBoard r c).isSome = true → ((r : ℕ) + (c : ℕ)) % 2 = 0) ∧
    (∀ (b : Board) (fromRow fromCol : Int) (piece : Piece),
      b.get fromRow fromCol = some piece →
      ∀ m ∈ getValidMoves b fromRow fromCol,
        isValidPosition m.row m.col = true ∧ b.get m.row m.col = none ∧
        (m.row + m.col) % 2 = (fromRow + fromCol) % 2) ∧
    (∀ (g : GameState) (fromRow fromCol toRow toCol : Int) (mv : Move),
      g.validMoves = getValidMoves g.board fromRow fromCol →
      g.validMoves.find? (moveMatcher toRow toCol) = some mv →
      (∀ (ri ci : Int) (q : Piece), g.board.get ri ci = some q → (ri + ci) % 2 = 0) →
      ∀ (ri ci : Int) (q : Piece),
        (movePiece g fromRow fromCol toRow toCol).board.get ri ci = some q →
        (ri + ci) % 2 = 0) := by
  refine ⟨by decide, ?_, ?_⟩
  · intro b fromRow fromCol piece hget m hm
    obtain ⟨h1, h2, h3, -⟩ := getValidMoves_sound hget m hm
    exact ⟨h1, h2, h3⟩
  · intro g fromRow fromCol toRow toCol mv hvm hfind hdark ri ci q hsome
    rcases hget : g.board.get fromRow fromCol with _ | piece
    · rw [movePiece_of_origin_none hfind hget] at hsome
      exact hdark ri ci q hsome
    · have hboard := movePiece_board hfind hget
      rw [hboard] at hsome
      have hmem : mv ∈ g.validMoves := List.mem_of_find?_eq_some hfind
      have hmatch0 := List.find?_some hfind
      have hmatch : (decide (mv.row = toRow) && decide (mv.col = toCol)) = true := hmatch0
      rw [Bool.and_eq_true, decide_eq_true_eq, decide_eq_true_eq] at hmatch
      obtain ⟨hmr, hmc⟩ := hmatch
      have hmemv : mv ∈ getValidMoves g.board fromRow fromCol := by
        rw [← hvm]
        exact hmem
      obtain ⟨hval, hdest0, hpar, -⟩ := getValidMoves_sound hget mv hmemv
      rw [hmr, hmc] at hval hdest0 hpar
      have hcapq := stored_move_capture_enemy (Or.inl hvm) hmem hget
      have hfrom_dark : (fromRow + fromCol) % 2 = 0 := hdark fromRow fromCol piece hget
      by_cases hto : ri = toRow ∧ ci = toCol
      · obtain ⟨rfl, rfl⟩ := hto
        omega
      · by_cases hfr : ri = fromRow ∧ ci = fromCol
        · obtain ⟨rfl, rfl⟩ := hfr
          rw [applyMoveBoard_get_from hget hdest0 hcapq] at hsome
          exact Option.noConfusion hsome
        · by_cases hcapeq : ∃ cap, mv.capture = some cap ∧ ri = cap.1 ∧ ci = cap.2
          · obtain ⟨cap, hcapc, rfl, rfl⟩ := hcapeq
            obtain ⟨q2, hq2, -⟩ := hcapq cap hcapc
            rw [hcapc, applyMoveBoard_get_cap hdest0 hq2] at hsome
            exact Option.noConfusion hsome
          · rw [applyMoveBoard_get_other g.board fromRow fromCol toRow toCol piece
              mv.capture ri ci hfr hto
              (fun cap hcapc hcon => hcapeq ⟨cap, hcapc, hcon.1, hcon.2⟩)] at hsome
            exact hdark ri ci q hsome

/-- Witness for C7: on the initial board, the opening move (5,1) → (4,0)
lands on an on-board, empty square of the same colour class. -/
theorem claim7_board_geometry_witness :
    isValidPosition 4 0 = true ∧ initBoard.get 4 0 = none ∧
    ((4 : ℤ) + 0) % 2 = ((5 : ℤ) + 1) % 2 := by
  have h := claim7_board_geometry.2.1 initBoard 5 1 { color := Color.red, king := false }
    (by decide) { row := 4, col := 0, capture := none } (by decide)
  exact h

/-! ### C8: resetGame and the starting side -/

/-- C8 (divergence witness).  `resetGame` in `game.js` rebuilds the standard
initial board (12 pieces per side) and clears the selection, the chain flag
and the game-over flag, but it sets `currentPlayer` to `null` — not to the
configured default Red; the repository's second, older copy of the engine
(`resetGameLegacy`) sets it to red as the claim states.  With a `null`
player no piece can be selected, so the game is stuck after a reset. -/
theorem claim8_reset_bug :
    resetGame (movePiece (selectPiece (newGame Color.red) 5 1) 5 1 4 0) =
      { board := initBoard, currentPlayer := none, selectedSquare := none,
        validMoves := [], continueCapture := false, gameOver := false, winner := none } ∧
    countPieces initBoard Color.red = 12 ∧ countPieces initBoard Color.black = 12 ∧
    resetGameLegacy (movePiece (selectPiece (newGame Color.red) 5 1) 5 1 4 0) =
      { board := initBoard, currentPlayer := some Color.red, selectedSquare := none,
        validMoves := [], continueCapture := false, gameOver := false, winner := none } :=
  ⟨rfl, by decide, by decide, rfl⟩

/-! ### C9: the concrete opening scenario -/

/-- C9 (counterexample).  On the initial board the square (5,0) is a light
square (5+0 is odd) and holds no piece, so the move (5,0) → (4,1) of the
claim is rejected outright: the state does not change, no red piece appears
at (4,1), and the side to move stays red instead of becoming black. -/
theorem claim9_counterexample :
    initBoard.get 5 0 = none ∧
    movePiece (selectPiece (newGame Color.red) 5 0) 5 0 4 1 =
      selectPiece (newGame Color.red) 5 0 ∧
    (movePiece (selectPiece (newGame Color.red) 5 0) 5 0 4 1).board.get 4 1 = none ∧
    (movePiece (selectPiece (newGame Color.red) 5 0) 5 0 4 1).currentPlayer ≠
      some Color.black := by
  exact ⟨by decide, by decide, by decide, by decide⟩

/-- C9 (amended).  On the initial board with red to move, applying the
opening move (5,1) → (4,0) — the nearest genuine red man, since row 5 holds
red pieces on odd columns only — leaves (5,1) empty, puts a non-king red
piece on (4,0), and makes black the side to move. -/
theorem claim9_opening_scenario :
    (movePiece (selectPiece (newGame Color.red) 5 1) 5 1 4 0).board.get 5 1 = none ∧
    (movePiece (selectPiece (newGame Color.red) 5 1) 5 1 4 0).board.get 4 0 =
      some { color := Color.red, king := false } ∧
    (movePiece (selectPiece (newGame Color.red) 5 1) 5 1 4 0).currentPlayer =
      some Color.black := by
  exact ⟨by decide, by decide, by decide⟩

/-! ### C3: characterization of the king capture scan -/

theorem kingCaptureScan_step_invalid {b : Board} {pc : Color} {row col dRow dCol : Int}
    {fuel : Nat} {dist : Int}
    (hv : isValidPosition (row + dRow * dist) (col + dCol * dist) = false)
    (ep : Option (Int × Int)) :
    kingCaptureScan b pc row col dRow dCol (fuel + 1) dist ep = [] := by
  rw [kingCaptureScan_succ, if_neg (by rw [hv]; exact Bool.false_ne_true)]

theorem kingCaptureScan_step_none {b : Board} {pc : Color} {row col dRow dCol : Int}
    {fuel : Nat} {dist : Int}
    (hv : isValidPosition (row + dRow * dist) (col + dCol * dist) = true)
    (hbg : b.get (row + dRow * dist) (col + dCol * dist) = none) :
    kingCaptureScan b pc row col dRow dCol (fuel + 1) dist none =
      kingCaptureScan b pc row col dRow dCol fuel (dist + 1) none := by
  rw [kingCaptureScan_succ, if_pos hv, hbg]

theorem kingCaptureScan_step_enemy {b : Board} {pc : Color} {row col dRow dCol : Int}
    {fuel : Nat} {dist : Int} {sq : Piece}
    (hv : isValidPosition (row + dRow * dist) (col + dCol * dist) = true)
    (hbg : b.get (row + dRow * dist) (col + dCol * dist) = some sq)
    (hsq : sq.color ≠ pc) :
    kingCaptureScan b pc row col dRow dCol (fuel + 1) dist none =
      kingCaptureScan b pc row col dRow dCol fuel (dist + 1)
        (some (row + dRow * dist, col + dCol * dist)) := by
  rw [kingCaptureScan_succ, if_pos hv, hbg]
  exact if_pos hsq

theorem kingCaptureScan_step_own {b : Board} {pc : Color} {row col dRow dCol : Int}
    {fuel : Nat} {dist : Int} {sq : Piece}
    (hv : isValidPosition (row + dRow * dist) (col + dCol * dist) = true)
    (hbg : b.get (row + dRow * dist) (col + dCol * dist) = some sq)
    (hsq : sq.color = pc) :
    kingCaptureScan b pc row col dRow dCol (fuel + 1) dist none = [] := by
  rw [kingCaptureScan_succ, if_pos hv, hbg]
  exact if_neg (not_not_intro hsq)

theorem kingCaptureScan_step_land {b : Board} {pc : Color} {row col dRow dCol : Int}
    {fuel : Nat} {dist : Int}
    (hv : isValidPosition (row + dRow * dist) (col + dCol * dist) = true)
    (hbg : b.get (row + dRow * dist) (col + dCol * dist) = none) (ep0 : Int × Int) :
    kingCaptureScan b pc row col dRow dCol (fuel + 1) dist (some ep0) =
      { row := row + dRow * dist, col := col + dCol * dist, capture := some ep0 } ::
        kingCaptureScan b pc row col dRow dCol fuel (dist + 1) (some ep0) := by
  rw [kingCaptureScan_succ, if_pos hv, hbg]

theorem kingCaptureScan_step_blocked {b : Board} {pc : Color} {row col dRow dCol : Int}
    {fuel : Nat} {dist : Int} {sq : Piece}
    (hv : isValidPosition (row + dRow * dist) (col + dCol * dist) = true)
    (hbg : b.get (row + dRow * dist) (col + dCol * dist) = some sq) (ep0 : Int × Int) :
    kingCaptureScan b pc row col dRow dCol (fuel + 1) dist (some ep0) = [] := by
  rw [kingCaptureScan_succ, if_pos hv, hbg]

/-- Skipping a run of empty squares before any enemy is met leaves the scan
state unchanged apart from the advanced distance. -/
theorem kingCaptureScan_skip {b : Board} {pc : Color} {row col dRow dCol : Int} :
    ∀ (e fuel : Nat) (dist : Int),
      (∀ j : Int, dist ≤ j → j < dist + (e : ℤ) →
        isValidPosition (row + dRow * j) (col + dCol * j) = true ∧
        b.get (row + dRow * j) (col + dCol * j) = none) →
      e ≤ fuel →
      kingCaptureScan b pc row col dRow dCol fuel dist none =
        kingCaptureScan b pc row col dRow dCol (fuel - e) (dist + (e : ℤ)) none := by
  intro e
  induction e with
  | zero =>
    intro fuel dist h hle
    norm_num
  | succ n ih =>
    intro fuel dist h hle
    obtain ⟨f, rfl⟩ : ∃ f, fuel = f + 1 := ⟨fuel - 1, by omega⟩
    have h0 := h dist (le_refl dist) (by push_cast; omega)
    rw [kingCaptureScan_step_none h0.1 h0.2]
    rw [ih f (dist + 1) (fun j hj1 hj2 => h j (by omega) (by push_cast at hj2 ⊢; omega))
      (by omega)]
    have he1 : f + 1 - (n + 1) = f - n := by omega
    have he2 : dist + 1 + (n : ℤ) = dist + ((n : ℕ) + 1 : ℕ) := by push_cast; ring
    rw [he1, he2]

/-- After the enemy has been recorded, the scan returns exactly one landing
move per consecutive empty square, stopping at the first obstruction or the
board edge. -/
theorem kingCaptureScan_collect {b : Board} {pc : Color} {row col dRow dCol : Int}
    (ep0 : Int × Int) :
    ∀ (N fuel : Nat) (dist : Int),
      (∀ j : Int, dist ≤ j → j < dist + (N : ℤ) →
        isValidPosition (row + dRow * j) (col + dCol * j) = true ∧
        b.get (row + dRow * j) (col + dCol * j) = none) →
      (isValidPosition (row + dRow * (dist + (N : ℤ))) (col + dCol * (dist + (N : ℤ))) =
          false ∨
        (b.get (row + dRow * (dist + (N : ℤ))) (col + dCol * (dist + (N : ℤ)))).isSome =
          true) →
      N < fuel →
      kingCaptureScan b pc row col dRow dCol fuel dist (some ep0) =
        (List.range N).map (fun i =>
          { row := row + dRow * (dist + (i : ℤ)), col := col + dCol * (dist + (i : ℤ)),
            capture := some ep0 }) := by
  intro N
  induction N with
  | zero =>
    intro fuel dist h hstop hlt
    obtain ⟨f, rfl⟩ : ∃ f, fuel = f + 1 := ⟨fuel - 1, by omega⟩
    have hc : dist + ((0 : ℕ) : ℤ) = dist := by norm_num
    rw [hc] at hstop
    rcases hstop with hinv | hsome
    · rw [kingCaptureScan_step_invalid hinv]
      simp
    · obtain ⟨q, hq⟩ := Option.isSome_iff_exists.mp hsome
      have hval : isValidPosition (row + dRow * dist) (col + dCol * dist) = true := by
        rw [isValidPosition_eq_true]
        exact Board.valid_of_get_eq_some hq
      rw [kingCaptureScan_step_blocked hval hq]
      simp
  | succ n ih =>
    intro fuel dist h hstop hlt
    obtain ⟨f, rfl⟩ : ∃ f, fuel = f + 1 := ⟨fuel - 1, by omega⟩
    have h0 := h dist (le_refl dist) (by push_cast; omega)
    rw [kingCaptureScan_step_land h0.1 h0.2 ep0]
    have hstop2 : isValidPosition (row + dRow * (dist + 1 + (n : ℤ)))
        (col + dCol * (dist + 1 + (n : ℤ))) = false ∨
        (b.get (row + dRow * (dist + 1 + (n : ℤ)))
          (col + dCol * (dist + 1 + (n : ℤ)))).isSome = true := by
      have hc : dist + 1 + (n : ℤ) = dist + ((n : ℕ) + 1 : ℕ) := by push_cast; ring
      rw [hc]
      exact hstop
    rw [ih f (dist + 1) (fun j hj1 hj2 => h j (by omega) (by push_cast at hj2 ⊢; omega))
      hstop2 (by omega)]
    rw [List.range_succ_eq_map, List.map_cons, List.map_map]
    congr 1
    · norm_num
    · apply List.map_congr_left
      intro i hi
      simp only [Function.comp_apply]
      congr 1 <;> push_cast <;> ring

theorem kingScan_mem_getCaptureMoves {b : Board} {row col : Int} {piece : Piece}
    (hpiece : b.get row col = some piece) (hking : piece.king = true)
    {dRow dCol : Int} (hdir : (dRow, dCol) ∈ pieceDirections piece) :
    ∀ m ∈ kingCaptureScan b piece.color row col dRow dCol 8 1 none,
      m ∈ getCaptureMoves b row col := by
  intro m hm
  unfold getCaptureMoves
  rw [hpiece]
  refine List.mem_flatMap.mpr ⟨(dRow, dCol), hdir, ?_⟩
  have hgoal : m ∈ (if piece.king = true then
      kingCaptureScan b piece.color row col dRow dCol 8 1 none
    else
      if isValidPosition (row + dRow) (col + dCol) = true ∧
          isValidPosition (row + dRow * 2) (col + dCol * 2) = true then
        match b.get (row + dRow) (col + dCol), b.get (row + dRow * 2) (col + dCol * 2) with
        | some jumped, none =>
          if jumped.color ≠ piece.color then
            [{ row := row + dRow * 2, col := col + dCol * 2,
               capture := (row + dRow, col + dCol) }]
          else []
        | _, _ => []
      else []) := by
    rw [if_pos hking]
    exact hm
  exact hgoal

/-- C3.  For a king, the capture scan along one of its diagonal directions
behaves as follows.  If the squares at distances 1..e are empty, the square
at distance e+1 holds an enemy, the squares at distances e+2..e+1+N are empty
and the square at distance e+2+N is off-board or occupied, then the scan
returns exactly N landing moves — one per empty square beyond the enemy, all
capturing that single enemy square — and each of them is returned by
`getCaptureMoves`.  If an own piece is met after the leading run of empties,
or the board edge is reached, the scan of that direction yields nothing. -/
theorem claim3_king_capture (b : Board) (row col : Int) (piece : Piece)
    (hpiece : b.get row col = some piece) (hking : piece.king = true)
    (dRow dCol : Int) (hdir : (dRow, dCol) ∈ pieceDirections piece) :
    (∀ e N : Nat,
      (∀ j ∈ List.range e,
        isValidPosition (row + dRow * (1 + (j : ℤ))) (col + dCol * (1 + (j : ℤ))) = true ∧
        b.get (row + dRow * (1 + (j : ℤ))) (col + dCol * (1 + (j : ℤ))) = none) →
      ∀ enemy : Piece,
        b.get (row + dRow * (1 + (e : ℤ))) (col + dCol * (1 + (e : ℤ))) = some enemy →
        enemy.color ≠ piece.color →
        (∀ j ∈ List.range N,
          isValidPosition (row + dRow * (2 + (e : ℤ) + (j : ℤ)))
            (col + dCol * (2 + (e : ℤ) + (j : ℤ))) = true ∧
          b.get (row + dRow * (2 + (e : ℤ) + (j : ℤ)))
            (col + dCol * (2 + (e : ℤ) + (j : ℤ))) = none) →
        (isValidPosition (row + dRow * (2 + (e : ℤ) + (N : ℤ)))
            (col + dCol * (2 + (e : ℤ) + (N : ℤ))) = false ∨
          (b.get (row + dRow * (2 + (e : ℤ) + (N : ℤ)))
            (col + dCol * (2 + (e : ℤ) + (N : ℤ)))).isSome = true) →
        kingCaptureScan b piece.color row col dRow dCol 8 1 none =
          (List.range N).map (fun i =>
            { row := row + dRow * (2 + (e : ℤ) + (i : ℤ)),
              col := col + dCol * (2 + (e : ℤ) + (i : ℤ)),
              capture := some (row + dRow * (1 + (e : ℤ)), col + dCol * (1 + (e : ℤ))) }) ∧
        (∀ m ∈ kingCaptureScan b piece.color row col dRow dCol 8 1 none,
          m ∈ getCaptureMoves b row col)) ∧
    (∀ e : Nat,
      (∀ j ∈ List.range e,
        isValidPosition (row + dRow * (1 + (j : ℤ))) (col + dCol * (1 + (j : ℤ))) = true ∧
        b.get (row + dRow * (1 + (j : ℤ))) (col + dCol * (1 + (j : ℤ))) = none) →
      ∀ own : Piece,
        b.get (row + dRow * (1 + (e : ℤ))) (col + dCol * (1 + (e : ℤ))) = some own →
        own.color = piece.color →
        kingCaptureScan b piece.color row col dRow dCol 8 1 none = []) ∧
    (∀ e : Nat,
      (∀ j ∈ List.range e,
        isValidPosition (row + dRow * (1 + (j : ℤ))) (col + dCol * (1 + (j : ℤ))) = true ∧
        b.get (row + dRow * (1 + (j : ℤ))) (col + dCol * (1 + (j : ℤ))) = none) →
      isValidPosition (row + dRow * (1 + (e : ℤ))) (col + dCol * (1 + (e : ℤ))) = false →
      kingCaptureScan b piece.color row col dRow dCol 8 1 none = []) := by
  have hdr : dRow = 1 ∨ dRow = -1 := (mem_pieceDirections hdir).1
  have hrb := Board.valid_of_get_eq_some hpiece
  have hbound : ∀ j : Int, 0 ≤ j →
      isValidPosition (row + dRow * j) (col + dCol * j) = true → j ≤ 7 := by
    intro j hj hv
    rw [isValidPosition_eq_true] at hv
    rcases hdr with h1 | h1 <;> rw [h1] at hv <;> omega
  have conv1 : ∀ e : Nat,
      (∀ j ∈ List.range e,
        isValidPosition (row + dRow * (1 + (j : ℤ))) (col + dCol * (1 + (j : ℤ))) = true ∧
        b.get (row + dRow * (1 + (j : ℤ))) (col + dCol * (1 + (j : ℤ))) = none) →
      ∀ j : Int, 1 ≤ j → j < 1 + (e : ℤ) →
        isValidPosition (row + dRow * j) (col + dCol * j) = true ∧
        b.get (row + dRow * j) (col + dCol * j) = none := by
    intro e he j hj1 hj2
    have hmem := he (j - 1).toNat (List.mem_range.mpr (by omega))
    have heq : (1 : ℤ) + (((j - 1).toNat : ℕ) : ℤ) = j := by omega
    rw [heq] at hmem
    exact hmem
  refine ⟨?_, ?_, ?_⟩
  · intro e N hempties enemy henemy hecolor hlands hstop
    have hconv := conv1 e hempties
    have henv : isValidPosition (row + dRow * (1 + (e : ℤ))) (col + dCol * (1 + (e : ℤ))) =
        true := by
      rw [isValidPosition_eq_true]
      exact Board.valid_of_get_eq_some henemy
    have he7 : (e : ℤ) + 1 ≤ 7 := by
      have := hbound (1 + (e : ℤ)) (by omega) henv
      omega
    constructor
    · rw [kingCaptureScan_skip e 8 1 hconv (by omega)]
      obtain ⟨f, hf⟩ : ∃ f, 8 - e = f + 1 := ⟨8 - e - 1, by omega⟩
      rw [hf, kingCaptureScan_step_enemy henv henemy hecolor]
      have hdisteq : (1 : ℤ) + (e : ℤ) + 1 = 2 + (e : ℤ) := by ring
      rw [hdisteq]
      have hemp : ∀ j : Int, 2 + (e : ℤ) ≤ j → j < 2 + (e : ℤ) + (N : ℤ) →
          isValidPosition (row + dRow * j) (col + dCol * j) = true ∧
          b.get (row + dRow * j) (col + dCol * j) = none := by
        intro j hj1 hj2
        have hmem := hlands (j - (2 + (e : ℤ))).toNat (List.mem_range.mpr (by omega))
        have heq : (2 : ℤ) + (e : ℤ) + (((j - (2 + (e : ℤ))).toNat : ℕ) : ℤ) = j := by omega
        rw [heq] at hmem
        exact hmem
      have hlt : N < f := by
        rcases Nat.eq_zero_or_pos N with h0 | hpos
        · omega
        · have hlast := hlands (N - 1) (List.mem_range.mpr (by omega))
          have := hbound (2 + (e : ℤ) + ((N - 1 : ℕ) : ℤ)) (by omega) hlast.1
          omega
      rw [kingCaptureScan_collect _ N f (2 + (e : ℤ)) hemp hstop hlt]
    · exact kingScan_mem_getCaptureMoves hpiece hking hdir
  · intro e hempties own hown howncolor
    have hconv := conv1 e hempties
    have hval : isValidPosition (row + dRow * (1 + (e : ℤ))) (col + dCol * (1 + (e : ℤ))) =
        true := by
      rw [isValidPosition_eq_true]
      exact Board.valid_of_get_eq_some hown
    have he7 : (e : ℤ) + 1 ≤ 7 := by
      have := hbound (1 + (e : ℤ)) (by omega) hval
      omega
    rw [kingCaptureScan_skip e 8 1 hconv (by omega)]
    obtain ⟨f, hf⟩ : ∃ f, 8 - e = f + 1 := ⟨8 - e - 1, by omega⟩
    rw [hf]
    exact kingCaptureScan_step_own hval hown howncolor
  · intro e hempties hinv
    have hconv := conv1 e hempties
    have he7 : e ≤ 7 := by
      rcases Nat.eq_zero_or_pos e with h0 | hpos
      · omega
      · have hlast := hempties (e - 1) (List.mem_range.mpr (by omega))
        have := hbound (1 + ((e - 1 : ℕ) : ℤ)) (by omega) hlast.1
        omega
    rw [kingCaptureScan_skip e 8 1 hconv (by omega)]
    obtain ⟨f, hf⟩ : ∃ f, 8 - e = f + 1 := ⟨8 - e - 1, by omega⟩
    rw [hf]
    exact kingCaptureScan_step_invalid hinv (none : Option (Int × Int))

/-- Witness for C3 on `boardKing`: the red king at (0,0) scanning direction
(1,1) skips two empty squares, jumps the enemy at (3,3), and collects exactly
the two landing squares (4,4) and (5,5); they are the whole of
`getCaptureMoves` for the king. -/
theorem claim3_king_capture_witness :
    kingCaptureScan boardKing Color.red 0 0 1 1 8 1 none =
      [{ row := 4, col := 4, capture := some (3, 3) },
       { row := 5, col := 5, capture := some (3, 3) }] ∧
    getCaptureMoves boardKing 0 0 =
      [{ row := 4, col := 4, capture := some (3, 3) },
       { row := 5, col := 5, capture := some (3, 3) }] := by
  constructor
  · have h := (claim3_king_capture boardKing 0 0 { color := Color.red, king := true }
      (by decide) rfl 1 1 (by decide)).1 2 2 (by decide)
      { color := Color.black, king := false } (by decide) (by decide) (by decide) (by decide)
    rw [h.1]
    decide
  · decide

end Dama
